import Mathlib

/-!
Verification of the pdf-compressor core (`src/lib.rs`).

This file shallowly embeds the compression policy engine of the
`pdf-compressor` repository (`src/lib.rs`) in Lean 4 and proves the
frozen claims about it.

Modelling conventions:
* Rust machine integers become `Nat`/`Int`; where 32-bit wrap-around
  matters (release-mode `u32` multiplication, `i64 as u32` casts) the
  reduction `% 2^32` is written explicitly.
* Rust `f32`/`f64` arithmetic is embedded exactly: an IEEE binary
  float with a `prec`-bit significand is represented by the structure
  `FP` (value `m * 2^e`), and every arithmetic step of the source is a
  correctly-rounded (round-to-nearest, ties-to-even) operation on that
  representation, exactly as IEEE 754 specifies for the value ranges
  that occur here (no overflow or subnormals arise at any call site).
* External collaborators (the `lopdf` container library, the `image`
  codec library, `flate2`, `ahash`) are out of scope per the spec and
  appear as components of an explicit context structure `Ctx` of
  abstract functions; every line of `src/lib.rs` itself is transcribed.
* Byte strings (`Vec<u8>`, `&[u8]` payloads) are `List Nat`; PDF name
  and dictionary keys (`b"..."`) are modelled by `String` via the ASCII
  bijection; the process environment variable read by the core becomes
  an explicit `Option String` argument.
-/

set_option maxRecDepth 16384

namespace PdfComp

/-! ## Exact binary floating point (round to nearest, ties to even) -/

/-- Fuelled base-2 logarithm: `log2p f n = ⌊log₂ n⌋` whenever `n < 2^f`
(and `n ≥ 1`).  A fuelled structural recursion is used so that the
kernel can evaluate it inside `decide`. -/
def log2p : Nat → Nat → Nat
  | 0, _ => 0
  | f + 1, n => if n ≤ 1 then 0 else log2p f (n / 2) + 1

/-- Bit length of a natural number (`0` for `0`), correct below `2^128`. -/
def bits (n : Nat) : Nat :=
  if n = 0 then 0 else log2p 128 n + 1

/-- Round the rational `a / b` to the nearest integer, ties to even. -/
def rneDiv (a b : Nat) : Nat :=
  if 2 * (a % b) > b ∨ (2 * (a % b) = b ∧ (a / b) % 2 = 1) then a / b + 1
  else a / b

/-- A binary floating point number `m * 2^e`.  For a nonzero number
produced by the operations below, `2^(prec-1) ≤ m < 2^prec`; zero is
`⟨0, 0⟩`. -/
structure FP where
  m : Nat
  e : Int
  deriving DecidableEq, Repr

/-- The exact rational value of a floating point number. -/
def fpVal (x : FP) : ℚ := (x.m : ℚ) * (2 : ℚ) ^ x.e

/-- Scale `(N, D)` by `2^t`: multiply the numerator (t ≥ 0) or the
denominator (t < 0) by the power of two, keeping everything in `Nat`. -/
def scalePair (N D : Nat) (t : Int) : Nat × Nat :=
  if 0 ≤ t then (N * 2 ^ t.toNat, D) else (N, D * 2 ^ (-t).toNat)

/-- First guess for the binary exponent shift that normalizes `N / D`
to `prec` significand bits. -/
def fpT0 (prec N D : Nat) : Int :=
  (prec : Int) - (bits N : Int) + (bits D : Int)

/-- The exact shift: the first guess, corrected by one where the scaled
quotient falls outside `[2^(prec-1), 2^prec)`. -/
def fpT (prec N D : Nat) : Int :=
  let p0 := scalePair N D (fpT0 prec N D)
  if p0.1 ≥ 2 ^ prec * p0.2 then fpT0 prec N D - 1
  else if p0.1 < 2 ^ (prec - 1) * p0.2 then fpT0 prec N D + 1
  else fpT0 prec N D

/-- Correctly round the positive rational `(N / D) * 2^e` to a float
with a `prec`-bit significand (round to nearest, ties to even).  This
is the single rounding primitive from which every embedded `f32`/`f64`
operation is built. -/
def fpOfRat (prec : Nat) (N D : Nat) (e : Int) : FP :=
  if N = 0 ∨ D = 0 then ⟨0, 0⟩ else
    let pr := scalePair N D (fpT prec N D)
    let m0 := rneDiv pr.1 pr.2
    if m0 = 2 ^ prec then ⟨2 ^ (prec - 1), e - fpT prec N D + 1⟩
    else ⟨m0, e - fpT prec N D⟩

/-- Convert an unsigned integer to floating point (IEEE conversion of
`u32 as f32` / `usize as f64`): exact below `2^prec`, correctly rounded
above. -/
def fpOfNat (prec : Nat) (n : Nat) : FP := fpOfRat prec n 1 0

/-- Correctly rounded floating point multiplication. -/
def fpMul (prec : Nat) (a b : FP) : FP :=
  if a.m = 0 ∨ b.m = 0 then ⟨0, 0⟩ else fpOfRat prec (a.m * b.m) 1 (a.e + b.e)

/-- Correctly rounded floating point division. -/
def fpDiv (prec : Nat) (a b : FP) : FP :=
  if a.m = 0 ∨ b.m = 0 then ⟨0, 0⟩ else fpOfRat prec a.m b.m (a.e - b.e)

/-- Floating point comparison `<`. -/
def fpLt (a b : FP) : Bool :=
  if a.e ≤ b.e then a.m < b.m * 2 ^ (b.e - a.e).toNat
  else a.m * 2 ^ (a.e - b.e).toNat < b.m

/-- Floating point comparison `≤`. -/
def fpLe (a b : FP) : Bool :=
  if a.e ≤ b.e then a.m ≤ b.m * 2 ^ (b.e - a.e).toNat
  else a.m * 2 ^ (a.e - b.e).toNat ≤ b.m

/-- Rust's saturating float-to-unsigned cast (`as u32` / `as u8`):
truncation toward zero, clamped to the maximum value. -/
def fpTruncSat (x : FP) (satMax : Nat) : Nat :=
  let v := if 0 ≤ x.e then x.m * 2 ^ x.e.toNat else x.m / 2 ^ (-x.e).toNat
  min v satMax

/-- The `f32` literal `0.4` (the IEEE-correct rounding of 2/5 to 24
significand bits, `13421773 * 2^-25`). -/
def f32c04 : FP := fpOfRat 24 2 5 0

/-- The `f32` literal `0.8` (rounding of 4/5 to 24 bits). -/
def f32c08 : FP := fpOfRat 24 4 5 0

/-- The `f64` literal `1.1` (rounding of 11/10 to 53 bits). -/
def f64c11 : FP := fpOfRat 53 11 10 0

/-! ## Quality mapper (`compress_pdf_bytes` lines 27–38, duplicated in
`compress_image_bytes` lines 421–432) -/

/-- `compression_level.min(95).max(10)` (lib.rs line 27 / 421). -/
def clampLevel (level : Nat) : Nat := max (min level 95) 10

/-- The level→quality map of lib.rs lines 30–38: four segments, with
each `f32` multiplication and the truncating `as u8` cast embedded
exactly.  Expects the already-clamped level. -/
def jpegQuality (level : Nat) : Nat :=
  if level ≤ 25 then
    100 - fpTruncSat (fpMul 24 (fpOfNat 24 level) f32c04) 255
  else if level ≤ 50 then
    90 - fpTruncSat (fpMul 24 (fpOfNat 24 (level - 25)) f32c08) 255
  else if level ≤ 75 then
    70 - fpTruncSat (fpMul 24 (fpOfNat 24 (level - 50)) f32c08) 255
  else
    50 - fpTruncSat (fpOfNat 24 (level - 75)) 255

/-! ## The document object model (the slice of `lopdf` the core touches)

`lopdf::Document` is an external collaborator; the core only reads and
writes its `objects` map (a `BTreeMap<ObjectId, Object>`, modelled as an
association list in the map's iteration order with unique keys), and
calls its methods through the context `Ctx` below. -/

/-- `lopdf::ObjectId = (u32, u16)`. -/
abbrev ObjectId := Nat × Nat

/-- The `lopdf::Object` variants the core distinguishes.  A stream is a
dictionary plus a raw byte payload.  The `real` payload (an `f32` the
core never touches) is modelled by its bit pattern. -/
inductive Object where
  | null
  | boolean (b : Bool)
  | integer (i : Int)
  | real (bitpat : Nat)
  | name (n : String)
  | strObj (s : List Nat)
  | array (elems : List Object)
  | dictionary (dict : List (String × Object))
  | stream (dict : List (String × Object)) (content : List Nat)
  | reference (id : ObjectId)

/-- A stream object by itself (`lopdf::Stream`: its dictionary and raw
content; the bookkeeping fields `allows_compression`/`start_position`
are never read by the core). -/
structure PStream where
  dict : List (String × Object)
  content : List Nat

/-- `Dictionary::get`: the value stored under a key, if any (`lopdf`
dictionaries have unique keys). -/
def dictGet (d : List (String × Object)) (k : String) : Option Object :=
  (d.find? (fun e => e.1 = k)).map (fun e => e.2)

/-- `Dictionary::set`: replace the value under an existing key, else
append the new entry. -/
def dictSet (d : List (String × Object)) (k : String) (v : Object) :
    List (String × Object) :=
  if d.any (fun e => e.1 = k) then
    d.map (fun e => if e.1 = k then (k, v) else e)
  else d ++ [(k, v)]

/-- The document's object map. -/
abbrev PDoc := List (ObjectId × Object)

/-- `doc.objects.get(&id)` (first entry with the key). -/
def lookupObj (doc : PDoc) (id : ObjectId) : Option Object :=
  (doc.find? (fun e => e.1 = id)).map (fun e => e.2)

/-- `doc.objects.insert(id, obj)`: replace the entry under an existing
key, else add the entry. -/
def insertObj (doc : PDoc) (id : ObjectId) (o : Object) : PDoc :=
  if doc.any (fun e => e.1 = id) then
    doc.map (fun e => if e.1 = id then (id, o) else e)
  else doc ++ [(id, o)]

/-- A decoded raster image of the `image` crate (`DynamicImage`):
dimensions plus sample data; its internals are only ever consumed by
the abstract codec functions of `Ctx`. -/
structure DynImg where
  width : Nat
  height : Nat
  data : List Nat

/-- `image::ImageFormat` restricted to the variants the core matches on
(`_` arms are `other`). -/
inductive ImgFormat where
  | jpeg
  | png
  | webp
  | other
  deriving DecidableEq, Repr

/-- `image::codecs::png::CompressionType` values used by the core. -/
inductive PngCompression where
  | best
  | default
  | fast
  deriving DecidableEq, Repr

/-- The external collaborators of the core, exactly the library calls
`src/lib.rs` makes: `lopdf` document methods, `flate2` codecs, `ahash`
hashing, and `image` crate decode/encode/resample.  Each is an abstract
function; fallible calls return `Option`. -/
structure Ctx where
  /-- `Document::load_mem` (parse failure ⇒ `none`). -/
  loadMem : List Nat → Option PDoc
  /-- `doc.save_to` (serialization failure ⇒ `none`). -/
  saveTo : PDoc → Option (List Nat)
  /-- `doc.compress()`. -/
  docCompress : PDoc → PDoc
  /-- `doc.prune_objects()`. -/
  pruneObjects : PDoc → PDoc
  /-- `doc.delete_zero_length_streams()`. -/
  deleteZeroLengthStreams : PDoc → PDoc
  /-- `AHasher` content hashing (`hash` + `finish`) of stream content. -/
  streamHash : List Nat → Nat
  /-- `flate2` Zlib encode at `Compression::best` (`write_all` or
  `finish` failure ⇒ `none`). -/
  zlibBest : List Nat → Option (List Nat)
  /-- `flate2::read::ZlibDecoder::read_to_end`. -/
  zlibDecode : List Nat → Option (List Nat)
  /-- `Stream::decompressed_content()` of `lopdf`. -/
  lopdfDecompress : PStream → Option (List Nat)
  /-- `RgbImage::from_raw` then `DynamicImage::ImageRgb8`. -/
  mkRgb : Nat → Nat → List Nat → Option DynImg
  /-- `RgbaImage::from_raw`, `ImageRgba8`, then `.to_rgb8().into()`. -/
  mkRgbaToRgb : Nat → Nat → List Nat → Option DynImg
  /-- `GrayImage::from_raw`, `ImageLuma8`, then `.to_rgb8().into()`. -/
  mkGrayToRgb : Nat → Nat → List Nat → Option DynImg
  /-- `DynamicImage::resize_exact` with `FilterType::Lanczos3`. -/
  resizeExact : DynImg → Nat → Nat → DynImg
  /-- `JpegEncoder::new_with_quality(_, q).encode_image` (failure ⇒
  `none`, success ⇒ the encoded bytes). -/
  jpegEncodeImg : Nat → DynImg → Option (List Nat)
  /-- `PngEncoder::new_with_quality(_, lvl, Adaptive).write_image`. -/
  pngEncode : PngCompression → DynImg → Option (List Nat)
  /-- `WebPEncoder::new_lossless(_).write_image`. -/
  webpEncodeLossless : DynImg → Option (List Nat)
  /-- `image::guess_format` (undetectable ⇒ `none`). -/
  guessFormat : List Nat → Option ImgFormat
  /-- `image::load_from_memory` (undecodable ⇒ `none`). -/
  loadFromMemory : List Nat → Option DynImg

/-! ## Embedded core functions of `src/lib.rs` -/

/-- Rust `i64 as u32`: the low 32 bits. -/
def intToU32 (i : Int) : Nat := (i % (2 ^ 32 : Int)).toNat

/-- `is_image_stream` (lib.rs lines 268–273). -/
def isImageStream (s : PStream) : Bool :=
  match dictGet s.dict "Subtype" with
  | some (.name n) => n = "Image"
  | _ => false

/-- `remove_duplicate_objects` (lib.rs lines 108–135): fold over the
object map building the hash→first-id map and the duplicate pair list;
returns `to_replace.len()` and passes the document through — the code
never writes to `doc`. -/
def removeDuplicateObjects (hash : List Nat → Nat) (doc : PDoc) :
    Nat × PDoc :=
  let acc := doc.foldl
    (fun (acc : List (Nat × ObjectId) × List (ObjectId × ObjectId)) e =>
      match e.2 with
      | .stream _ c =>
        let hv := hash c
        match acc.1.find? (fun p => p.1 = hv) with
        | some existing => (acc.1, acc.2 ++ [(e.1, existing.2)])
        | none => (acc.1 ++ [(hv, e.1)], acc.2)
      | _ => acc)
    ([], [])
  (acc.2.length, doc)

/-- `compress_generic_stream` (lib.rs lines 215–266). -/
def compressGenericStream (ctx : Ctx) (s : PStream) : PStream :=
  let originalContentSize := s.content.length
  match dictGet s.dict "Filter" with
  | some _ =>
    match ctx.lopdfDecompress s with
    | some decompressed =>
      match ctx.zlibBest decompressed with
      | some recompressed =>
        if recompressed.length < originalContentSize then
          ⟨dictSet (dictSet s.dict "Filter" (.name "FlateDecode"))
             "Length" (.integer recompressed.length), recompressed⟩
        else s
      | none => s
    | none => s
  | none =>
    match ctx.zlibBest s.content with
    | some compressed =>
      if compressed.length < originalContentSize then
        ⟨dictSet (dictSet s.dict "Filter" (.name "FlateDecode"))
           "Length" (.integer compressed.length), compressed⟩
      else s
    | none => s

/-- Component inference of `compress_image_stream` (lib.rs lines
329–338): `pixel_count = (width * height) as usize` is a release-mode
`u32` product, hence the `% 2^32`. -/
def inferComponents (width height len : Nat) : Option Nat :=
  let pixelCount := width * height % 2 ^ 32
  if len = pixelCount * 3 then some 3
  else if len = pixelCount * 4 then some 4
  else if len = pixelCount then some 1
  else none

/-- The quality→cap bands of lib.rs lines 368–374 (and 526–532). -/
def downsampleCap (quality : Nat) : Nat :=
  if quality ≥ 70 then 1500
  else if quality ≥ 50 then 1200
  else 1000

/-- The scaled dimensions of lib.rs lines 376–378: `scale =
cap_f32 / (max(w,h) as f32)` then `(w as f32 * scale) as u32`, each
step in exact `f32` arithmetic. -/
def f32ScaledDims (cap w h : Nat) : Nat × Nat :=
  let scale := fpDiv 24 (fpOfNat 24 cap) (fpOfNat 24 (max w h))
  (fpTruncSat (fpMul 24 (fpOfNat 24 w) scale) (2 ^ 32 - 1),
   fpTruncSat (fpMul 24 (fpOfNat 24 h) scale) (2 ^ 32 - 1))

/-- Target dimensions in `compress_image_stream` (lib.rs lines
367–383): downsample only when `quality < 90 && (width > 1500 ||
height > 1500)`. -/
def targetDimsStream (quality w h : Nat) : Nat × Nat :=
  if quality < 90 ∧ (w > 1500 ∨ h > 1500) then
    f32ScaledDims (downsampleCap quality) w h
  else (w, h)

/-- `compress_image_stream` (lib.rs lines 275–411). -/
def compressImageStream (ctx : Ctx) (s : PStream) (quality : Nat) :
    Except String PStream :=
  let isDCT : Bool :=
    match dictGet s.dict "Filter" with
    | some (.name f) => f = "DCTDecode"
    | _ => false
  if isDCT then .error "Already JPEG (DCTDecode)" else
  match dictGet s.dict "Width" with
  | some (.integer wI) =>
    match dictGet s.dict "Height" with
    | some (.integer hI) =>
      let width := intToU32 wI
      let height := intToU32 hI
      let bpc :=
        match dictGet s.dict "BitsPerComponent" with
        | some (.integer b) => intToU32 b
        | _ => 8
      if bpc ≠ 8 then .error ("Not 8-bit (bpc=" ++ toString bpc ++ ")") else
      let contentE : Except String (List Nat) :=
        match dictGet s.dict "Filter" with
        | some (.name f) =>
          if f = "FlateDecode" then
            match ctx.zlibDecode s.content with
            | some d => .ok d
            | none => .error "Manual decompression failed"
          else
            match ctx.lopdfDecompress s with
            | some d => .ok d
            | none => .error "Decompress failed"
        | _ => .ok s.content
      match contentE with
      | .error e => .error e
      | .ok content =>
        match inferComponents width height content.length with
        | none => .error "Unexpected size"
        | some components =>
          let imgE : Except String DynImg :=
            match components with
            | 3 =>
              match ctx.mkRgb width height content with
              | some i => .ok i
              | none => .error "Failed to create RGB image"
            | 4 =>
              match ctx.mkRgbaToRgb width height content with
              | some i => .ok i
              | none => .error "Failed to create RGBA image"
            | 1 =>
              match ctx.mkGrayToRgb width height content with
              | some i => .ok i
              | none => .error "Failed to create grayscale image"
            | _ => .error "Unsupported component count"
          match imgE with
          | .error e => .error e
          | .ok dynImg =>
            let tw := (targetDimsStream quality width height).1
            let th := (targetDimsStream quality width height).2
            let finalImg :=
              if tw ≠ width ∨ th ≠ height then ctx.resizeExact dynImg tw th
              else dynImg
            match ctx.jpegEncodeImg quality finalImg with
            | some compressed =>
              let d1 := dictSet s.dict "Filter" (.name "DCTDecode")
              let d2 := dictSet d1 "Length" (.integer compressed.length)
              let d3 := dictSet d2 "ColorSpace" (.name "DeviceRGB")
              let d4 :=
                if tw ≠ width ∨ th ≠ height then
                  dictSet (dictSet d3 "Width" (.integer tw))
                    "Height" (.integer th)
                else d3
              .ok ⟨d4, compressed⟩
            | none => .error "Image encoding failed"
    | _ => .error "No height"
  | _ => .error "No width"

/-- The per-stream body of the `filter_map` in `compress_all_streams`
(lib.rs lines 160–195): `None` means "keep the original stream". -/
def streamUpdate (ctx : Ctx) (quality : Nat)
    (entry : ObjectId × PStream) : Option (ObjectId × PStream) :=
  let originalSize := entry.2.content.length
  let compressedE : Option PStream :=
    if isImageStream entry.2 then
      match compressImageStream ctx entry.2 quality with
      | .ok s => some s
      | .error _ => none
    else some (compressGenericStream ctx entry.2)
  match compressedE with
  | none => none
  | some compressed =>
    if compressed.content.length < originalSize then
      some (entry.1, compressed)
    else none

/-- The stream objects of the document, in map order (lib.rs lines
141–147). -/
def streamEntries (doc : PDoc) : List (ObjectId × PStream) :=
  doc.filterMap (fun e =>
    match e.2 with
    | .stream d c => some (e.1, ⟨d, c⟩)
    | _ => none)

/-- `compress_all_streams` (lib.rs lines 137–213): compute all accepted
replacements, then commit them with `objects.insert`. -/
def compressAllStreams (ctx : Ctx) (quality : Nat) (doc : PDoc) : PDoc :=
  let compressedStreams := (streamEntries doc).filterMap
    (streamUpdate ctx quality)
  compressedStreams.foldl
    (fun d u => insertObj d u.1 (.stream u.2.dict u.2.content)) doc

/-- `compress_all_streams` with its Rust result type
`Result<(), String>`: the body has no error exit, so the transcription
always succeeds with the updated document. -/
def compressAllStreamsE (ctx : Ctx) (quality : Nat) (doc : PDoc) :
    Except String PDoc :=
  .ok (compressAllStreams ctx quality doc)

/-- The metadata-stripping retain of `compress_pdf_bytes` (lib.rs lines
65–72): keep an object unless it is a *plain dictionary* whose `Type`
entry is the name `Metadata`. -/
def keepNonMetadata (o : Object) : Bool :=
  match o with
  | .dictionary d =>
    match dictGet d "Type" with
    | some (.name n) => n ≠ "Metadata"
    | _ => true
  | _ => true

/-- The `StripMetadata` phase (lib.rs lines 65–72). -/
def stripMetadata (doc : PDoc) : PDoc :=
  doc.filter (fun e => keepNonMetadata e.2)

/-- Rust `str::parse::<u32>`: optional leading `+`, one or more ASCII
digits, value below `2^32`. -/
def parseU32 (s : String) : Option Nat :=
  let ds := match s.toList with
            | '+' :: rest => rest
            | cs => cs
  if ds.isEmpty then none
  else if ds.all (fun c => c.isDigit) then
    let n := ds.foldl (fun a c => a * 10 + (c.toNat - 48)) 0
    if n < 2 ^ 32 then some n else none
  else none

/-- The round count of `compress_pdf_bytes` (lib.rs lines 77–81):
`std::env::var("PDF_COMPRESSION_ROUNDS").ok().and_then(parse)
.unwrap_or(2).min(5)`.  The process environment variable is the
explicit argument `env`. -/
def compressionRounds (env : Option String) : Nat :=
  min ((env.bind parseU32).getD 2) 5

/-- One convergence round (lib.rs lines 84–89): `doc.compress()`,
`doc.prune_objects()`, `doc.delete_zero_length_streams()`. -/
def compactRound (ctx : Ctx) (doc : PDoc) : PDoc :=
  ctx.deleteZeroLengthStreams (ctx.pruneObjects (ctx.docCompress doc))

/-- `compress_pdf_bytes` (lib.rs lines 25–106).  `env` is the value of
the `PDF_COMPRESSION_ROUNDS` process environment variable, made an
explicit argument by the shallow embedding. -/
def compressPdfBytes (ctx : Ctx) (env : Option String)
    (inputBytes : List Nat) (compressionLevel : Nat) :
    Except String (List Nat) :=
  let level := clampLevel compressionLevel
  let quality := jpegQuality level
  match ctx.loadMem inputBytes with
  | none => .error "Failed to load PDF"
  | some doc =>
    let doc := (removeDuplicateObjects ctx.streamHash doc).2
    match compressAllStreamsE ctx quality doc with
    | .error e => .error e
    | .ok doc =>
      let doc := stripMetadata doc
      let rounds := compressionRounds env
      let doc := (compactRound ctx)^[rounds] doc
      let doc := ctx.pruneObjects (ctx.docCompress doc)
      match ctx.saveTo doc with
      | none => .error "Failed to save"
      | some output => .ok output

/-! ## Standalone image pipeline (`compress_image_bytes`,
`encode_image_with_quality`) -/

/-- The PNG compression level derived from quality (lib.rs lines
557–563). -/
def pngCompressionOf (quality : Nat) : PngCompression :=
  if quality ≥ 90 then .best
  else if quality ≥ 70 then .default
  else .fast

/-- Target dimensions in `encode_image_with_quality` (lib.rs lines
525–545): like the stream path, but the resize happens only when the
`f32` scale compares `< 1.0`. -/
def targetDimsStandalone (quality w h : Nat) : Nat × Nat :=
  if quality < 90 ∧ (w > 1500 ∨ h > 1500) then
    let scale := fpDiv 24 (fpOfNat 24 (downsampleCap quality))
      (fpOfNat 24 (max w h))
    if fpLt scale (fpOfNat 24 1) then f32ScaledDims (downsampleCap quality) w h
    else (w, h)
  else (w, h)

/-- `encode_image_with_quality` (lib.rs lines 516–597). -/
def encodeImageWithQuality (ctx : Ctx) (img : DynImg) (quality : Nat)
    (format : ImgFormat) : Except String (List Nat) :=
  let w := img.width
  let h := img.height
  let downsampled :=
    if quality < 90 ∧ (w > 1500 ∨ h > 1500) then
      let scale := fpDiv 24 (fpOfNat 24 (downsampleCap quality))
        (fpOfNat 24 (max w h))
      if fpLt scale (fpOfNat 24 1) then
        ctx.resizeExact img (f32ScaledDims (downsampleCap quality) w h).1
          (f32ScaledDims (downsampleCap quality) w h).2
      else img
    else img
  match format with
  | .jpeg =>
    match ctx.jpegEncodeImg quality downsampled with
    | some out => .ok out
    | none => .error "JPEG encoding failed"
  | .png =>
    match ctx.pngEncode (pngCompressionOf quality) downsampled with
    | some out => .ok out
    | none => .error "PNG encoding failed"
  | .webp =>
    match ctx.webpEncodeLossless downsampled with
    | some out => .ok out
    | none => .error "WebP encoding failed"
  | .other => .error "Unsupported format"

/-- The explicit output-format parser of `compress_image_bytes` (lib.rs
lines 450–456): `fmt.to_lowercase()` matched against the supported
names. -/
def parseTargetFormat (f : String) : Option ImgFormat :=
  let l := f.toLower
  if l = "jpg" ∨ l = "jpeg" then some .jpeg
  else if l = "png" then some .png
  else if l = "webp" then some .webp
  else none

/-- Output file extension for a format (lib.rs lines 501–506). -/
def extOf : ImgFormat → String
  | .jpeg => "jpg"
  | .png => "png"
  | .webp => "webp"
  | .other => "img"

/-- The auto-selection the code runs when no target format is given and
the source format is lossless (lib.rs lines 462–495): encode both JPEG
and PNG candidates and pick — PNG iff `png_size as f64 <= jpeg_size as
f64 * 1.1` in exact `f64` arithmetic. -/
def pickAutoCandidate (jpegRes pngRes : Except String (List Nat)) :
    Except String (List Nat × String) :=
  match jpegRes, pngRes with
  | .ok jpegBytes, .ok pngBytes =>
    if fpLe (fpOfNat 53 pngBytes.length)
        (fpMul 53 (fpOfNat 53 jpegBytes.length) f64c11) then
      .ok (pngBytes, "png")
    else
      .ok (jpegBytes, "jpg")
  | .ok jpegBytes, .error _ => .ok (jpegBytes, "jpg")
  | .error _, .ok pngBytes => .ok (pngBytes, "png")
  | .error e1, .error e2 =>
    .error ("Both JPEG and PNG encoding failed: " ++ e1 ++ " / " ++ e2)

/-- `compress_image_bytes` (lib.rs lines 415–513). -/
def compressImageBytes (ctx : Ctx) (inputBytes : List Nat)
    (compressionLevel : Nat) (outputFormat : Option String) :
    Except String (List Nat × String) :=
  let level := clampLevel compressionLevel
  let quality := jpegQuality level
  match ctx.guessFormat inputBytes with
  | none => .error "Failed to detect image format"
  | some inputFormat =>
    match ctx.loadFromMemory inputBytes with
    | none => .error "Failed to load image"
    | some img =>
      match outputFormat with
      | some f =>
        match parseTargetFormat f with
        | none => .error ("Unsupported output format: " ++ f)
        | some targetFormat =>
          match encodeImageWithQuality ctx img quality targetFormat with
          | .error e => .error e
          | .ok compressed => .ok (compressed, extOf targetFormat)
      | none =>
        match inputFormat with
        | .jpeg | .webp =>
          match encodeImageWithQuality ctx img quality .jpeg with
          | .error e => .error e
          | .ok compressed => .ok (compressed, extOf .jpeg)
        | _ =>
          pickAutoCandidate (encodeImageWithQuality ctx img quality .jpeg)
            (encodeImageWithQuality ctx img quality .png)

/-! ## Specification-side definitions and concrete instances used by
the theorems -/

/-- The stream payloads of a document, in map order. -/
def streamContents (doc : PDoc) : List (List Nat) :=
  doc.filterMap (fun e =>
    match e.2 with
    | .stream _ c => some c
    | _ => none)

/-- Specification count of duplicate streams: a payload counts when its
hash equals the hash of some earlier stream payload. -/
def dupCount (hash : List Nat → Nat) (seen : List Nat) :
    List (List Nat) → Nat
  | [] => 0
  | c :: rest =>
    if (seen.any (fun x => x = hash c)) then dupCount hash seen rest + 1
    else dupCount hash (seen ++ [hash c]) rest

/-- The document right before `doc.save_to` in `compress_pdf_bytes`:
everything the pipeline does between a successful parse and
serialization. -/
def transformedDoc (ctx : Ctx) (env : Option String) (level : Nat)
    (doc : PDoc) : PDoc :=
  let quality := jpegQuality (clampLevel level)
  let d1 := (removeDuplicateObjects ctx.streamHash doc).2
  let d2 := compressAllStreams ctx quality d1
  let d3 := stripMetadata d2
  let d4 := (compactRound ctx)^[compressionRounds env] d3
  ctx.pruneObjects (ctx.docCompress d4)

/-- A trivial instantiation of the external collaborators: parses and
encodes nothing, hashes everything alike, and leaves documents
untouched.  Concrete contexts below override single fields. -/
def baseCtx : Ctx where
  loadMem _ := none
  saveTo _ := none
  docCompress d := d
  pruneObjects d := d
  deleteZeroLengthStreams d := d
  streamHash _ := 0
  zlibBest _ := none
  zlibDecode _ := none
  lopdfDecompress _ := none
  mkRgb _ _ _ := none
  mkRgbaToRgb _ _ _ := none
  mkGrayToRgb _ _ _ := none
  resizeExact i _ _ := i
  jpegEncodeImg _ _ := none
  pngEncode _ _ := none
  webpEncodeLossless _ := none
  guessFormat _ := none
  loadFromMemory _ := none

/-- One-object document with a three-byte generic stream. -/
def c1Doc : PDoc := [((1, 0), .stream [] [0, 0, 0])]

/-- Context whose Zlib encoder always produces the single byte `[9]`. -/
def c1Ctx : Ctx := { baseCtx with zlibBest := fun _ => some [9] }

/-- One-object document with a zero-length generic stream. -/
def c2Doc : PDoc := [((1, 0), .stream [] [])]

/-- Context for observing the environment-driven round count: parsing
always yields `c2Doc`, serialization reports the object count, and
`delete_zero_length_streams` behaves as its `lopdf` documentation says
(it removes streams with empty content). -/
def c2Ctx : Ctx :=
  { baseCtx with
    loadMem := fun _ => some c2Doc
    saveTo := fun d => some [d.length]
    deleteZeroLengthStreams := fun d => d.filter (fun e =>
      match e.2 with
      | .stream _ [] => false
      | _ => true) }

/-- One-object document whose single object is a *stream* carrying
`Type = Metadata` in its dictionary. -/
def c5Doc : PDoc := [((1, 0), .stream [("Type", .name "Metadata")] [])]

/-- Lossy candidate size of the C7 counterexample: 6·10¹⁵ bytes. -/
def c7J : Nat := 6000000000000000

/-- Lossless candidate size of the C7 counterexample: 11·c7J/10 + 1
bytes — strictly more than 110 % of the lossy size. -/
def c7P : Nat := 6600000000000001

/-- Context for the C7 counterexample: a lossless-sourced input whose
JPEG candidate has `c7J` bytes and whose PNG candidate has `c7P`
bytes. -/
def c7Ctx : Ctx :=
  { baseCtx with
    guessFormat := fun _ => some .png
    loadFromMemory := fun _ => some ⟨1, 1, []⟩
    jpegEncodeImg := fun _ _ => some (List.replicate c7J 0)
    pngEncode := fun _ _ => some (List.replicate c7P 0) }

/-- Context for C10: a JPEG-sourced input whose re-encoding yields five
bytes, more than the two input bytes. -/
def c10Ctx : Ctx :=
  { baseCtx with
    guessFormat := fun _ => some .jpeg
    loadFromMemory := fun _ => some ⟨1, 1, []⟩
    jpegEncodeImg := fun _ _ => some [7, 7, 7, 7, 7] }

/-! ## Helper lemmas about the object map -/

theorem lookup_cons_eq (hd : ObjectId × Object) (tl : PDoc)
    (j : ObjectId) (h : hd.1 = j) :
    lookupObj (hd :: tl) j = some hd.2 := by
  simp only [lookupObj]
  rw [List.find?_cons_of_pos _ (by simp [h])]
  rfl

theorem lookup_cons_ne (hd : ObjectId × Object) (tl : PDoc)
    (j : ObjectId) (h : hd.1 ≠ j) :
    lookupObj (hd :: tl) j = lookupObj tl j := by
  simp only [lookupObj]
  rw [List.find?_cons_of_neg _ (by simp [h])]

theorem lookup_map_replace_ne (d : PDoc) (i : ObjectId) (o : Object)
    (j : ObjectId) (hji : j ≠ i) :
    lookupObj (d.map (fun e => if e.1 = i then (i, o) else e)) j =
      lookupObj d j := by
  induction d with
  | nil => rfl
  | cons hd tl ih =>
    simp only [List.map_cons]
    by_cases hi : hd.1 = i
    · rw [if_pos hi, lookup_cons_ne (i, o) _ j (fun hc => hji hc.symm),
        lookup_cons_ne hd tl j (fun hc => hji (hi ▸ hc).symm)]
      exact ih
    · rw [if_neg hi]
      by_cases hdj : hd.1 = j
      · rw [lookup_cons_eq hd _ j hdj, lookup_cons_eq hd tl j hdj]
      · rw [lookup_cons_ne hd _ j hdj, lookup_cons_ne hd tl j hdj]
        exact ih

theorem lookup_map_replace_eq (d : PDoc) (i : ObjectId) (o : Object)
    (hany : d.any (fun e => e.1 = i) = true) :
    lookupObj (d.map (fun e => if e.1 = i then (i, o) else e)) i =
      some o := by
  induction d with
  | nil => simp at hany
  | cons hd tl ih =>
    simp only [List.map_cons]
    by_cases hi : hd.1 = i
    · rw [if_pos hi, lookup_cons_eq (i, o) _ i rfl]
    · rw [if_neg hi, lookup_cons_ne hd _ i hi]
      simp only [List.any_cons, Bool.or_eq_true, decide_eq_true_eq] at hany
      rcases hany with h | h
      · exact (hi h).elim
      · exact ih h

theorem lookup_none_of_not_any (d : PDoc) (j : ObjectId)
    (hany : ¬ d.any (fun e => e.1 = j) = true) :
    lookupObj d j = none := by
  induction d with
  | nil => rfl
  | cons hd tl ih =>
    simp only [List.any_cons, Bool.or_eq_true, decide_eq_true_eq,
      not_or] at hany
    rw [lookup_cons_ne hd tl j hany.1]
    exact ih (by simp [hany.2])

theorem lookup_append_single_of_not_any (d : PDoc) (i : ObjectId)
    (o : Object) (j : ObjectId)
    (hany : ¬ d.any (fun e => e.1 = i) = true) :
    lookupObj (d ++ [(i, o)]) j =
      if j = i then some o else lookupObj d j := by
  induction d with
  | nil =>
    by_cases hji : j = i
    · rw [if_pos hji, List.nil_append, lookup_cons_eq (i, o) [] j hji.symm]
    · rw [if_neg hji, List.nil_append,
        lookup_cons_ne (i, o) [] j (fun hc => hji hc.symm)]
  | cons hd tl ih =>
    simp only [List.any_cons, Bool.or_eq_true, decide_eq_true_eq,
      not_or] at hany
    simp only [List.cons_append]
    by_cases hdj : hd.1 = j
    · rw [lookup_cons_eq hd _ j hdj, lookup_cons_eq hd tl j hdj]
      rw [if_neg (fun hc => hany.1 (hdj.trans hc))]
    · rw [lookup_cons_ne hd _ j hdj, lookup_cons_ne hd tl j hdj]
      exact ih (by simp [hany.2])

theorem lookup_insertObj (d : PDoc) (i : ObjectId) (o : Object)
    (j : ObjectId) :
    lookupObj (insertObj d i o) j =
      if j = i then some o else lookupObj d j := by
  unfold insertObj
  by_cases hany : d.any (fun e => e.1 = i) = true
  · rw [if_pos hany]
    by_cases hji : j = i
    · subst hji
      rw [if_pos rfl]
      exact lookup_map_replace_eq d j o hany
    · rw [if_neg hji]
      exact lookup_map_replace_ne d i o j hji
  · rw [if_neg hany]
    exact lookup_append_single_of_not_any d i o j hany

theorem lookup_foldl_insert (ups : List (ObjectId × PStream)) :
    ∀ (d : PDoc) (j : ObjectId),
      lookupObj (ups.foldl
        (fun d u => insertObj d u.1 (.stream u.2.dict u.2.content)) d) j =
        lookupObj d j ∨
      ∃ s, (j, s) ∈ ups ∧
        lookupObj (ups.foldl
          (fun d u => insertObj d u.1 (.stream u.2.dict u.2.content)) d) j =
          some (.stream s.dict s.content) := by
  induction ups with
  | nil => intro d j; exact Or.inl rfl
  | cons hd tl ih =>
    intro d j
    simp only [List.foldl_cons]
    rcases ih (insertObj d hd.1 (.stream hd.2.dict hd.2.content)) j with
      h | ⟨s, hs, hl⟩
    · rw [h, lookup_insertObj]
      by_cases hji : j = hd.1
      · subst hji
        exact Or.inr ⟨hd.2, by simp, by simp⟩
      · rw [if_neg hji]
        exact Or.inl rfl
    · exact Or.inr ⟨s, List.mem_cons_of_mem _ hs, hl⟩

theorem mem_lookup_of_nodup (doc : PDoc) (id : ObjectId) (o : Object)
    (hnd : (doc.map Prod.fst).Nodup) (hmem : (id, o) ∈ doc) :
    lookupObj doc id = some o := by
  induction doc with
  | nil => simp at hmem
  | cons hd tl ih =>
    simp only [List.map_cons, List.nodup_cons] at hnd
    rcases List.mem_cons.mp hmem with h | h
    · subst h
      simp [lookupObj, List.find?]
    · have hne : hd.1 ≠ id := by
        intro hc
        exact hnd.1 (hc ▸ List.mem_map_of_mem Prod.fst h)
      simp only [lookupObj, List.find?]
      rw [show (decide (hd.1 = id)) = false by simp [hne]]
      exact ih hnd.2 h

theorem streamUpdate_shrinks (ctx : Ctx) (q : Nat)
    (entry : ObjectId × PStream) (id : ObjectId) (s : PStream)
    (h : streamUpdate ctx q entry = some (id, s)) :
    entry.1 = id ∧ s.content.length < entry.2.content.length := by
  unfold streamUpdate at h
  dsimp only at h
  split at h
  · simp at h
  · split at h
    · simp only [Option.some.injEq, Prod.mk.injEq] at h
      obtain ⟨h1, h2⟩ := h
      subst h1; subst h2
      exact ⟨rfl, by assumption⟩
    · simp at h

/-- Claim C1 — never-grow-per-unit: `compress_all_streams` either
leaves an object (in particular every non-stream object and every
stream whose recompression failed or did not shrink) byte-for-byte
unchanged, or replaces a stream object by a stream whose payload is
strictly shorter than the original payload. -/
theorem spec_C1_never_grow_per_unit (ctx : Ctx) (quality : Nat)
    (doc : PDoc) (hnd : (doc.map Prod.fst).Nodup) (id : ObjectId) :
    lookupObj (compressAllStreams ctx quality doc) id = lookupObj doc id ∨
    ∃ d c dNew cNew,
      lookupObj doc id = some (.stream d c) ∧
      lookupObj (compressAllStreams ctx quality doc) id =
        some (.stream dNew cNew) ∧
      cNew.length < c.length := by
  unfold compressAllStreams
  rcases lookup_foldl_insert
      ((streamEntries doc).filterMap (streamUpdate ctx quality)) doc id with
    h | ⟨s, hmem, hl⟩
  · exact Or.inl h
  · right
    rcases List.mem_filterMap.mp hmem with ⟨entry, hent, hupd⟩
    obtain ⟨heq, hlt⟩ := streamUpdate_shrinks ctx quality entry id s hupd
    have hdocmem : (id, Object.stream entry.2.dict entry.2.content) ∈ doc := by
      rcases List.mem_filterMap.mp hent with ⟨e, he, hse⟩
      rcases e with ⟨eid, eo⟩
      cases eo with
      | stream d c =>
        simp only [streamEntries, Option.some.injEq] at hse
        subst hse
        simp only at heq ⊢
        subst heq
        exact he
      | null => simp at hse
      | boolean b => simp at hse
      | integer i => simp at hse
      | real bp => simp at hse
      | name n => simp at hse
      | strObj s2 => simp at hse
      | array a => simp at hse
      | dictionary d2 => simp at hse
      | reference r => simp at hse
    refine ⟨entry.2.dict, entry.2.content, s.dict, s.content,
      mem_lookup_of_nodup doc id _ hnd hdocmem, hl, hlt⟩

/-- Witness for C1: a document with one three-byte generic stream whose
recompression yields one byte; the theorem applies and its disjunction
is realized. -/
theorem spec_C1_witness :
    lookupObj (compressAllStreams c1Ctx 50 c1Doc) (1, 0) =
      lookupObj c1Doc (1, 0) ∨
    ∃ d c dNew cNew,
      lookupObj c1Doc (1, 0) = some (.stream d c) ∧
      lookupObj (compressAllStreams c1Ctx 50 c1Doc) (1, 0) =
        some (.stream dNew cNew) ∧
      cNew.length < c.length :=
  spec_C1_never_grow_per_unit c1Ctx 50 c1Doc (by simp [c1Doc]) (1, 0)

/-- Counterexample for C2: the embedded `compress_pdf_bytes` — in which
the process environment is an explicit input, because lib.rs line 77
reads `std::env::var("PDF_COMPRESSION_ROUNDS")` — produces different
outputs for the same input bytes and the same level when that variable
changes from unset (2 rounds) to `"0"` (0 rounds), so the function is
not pure in its two arguments and the round count is read from the
environment by the core, not injected by the caller. -/
theorem spec_C2_counterexample :
    compressionRounds none = 2 ∧
    compressionRounds (some "0") = 0 ∧
    compressPdfBytes c2Ctx none [] 75 = .ok [0] ∧
    compressPdfBytes c2Ctx (some "0") [] 75 = .ok [1] ∧
    (Except.ok [(0 : Nat)] : Except String (List Nat)) ≠ .ok [1] :=
  ⟨rfl, rfl, rfl, rfl, by simp⟩

/-- Claim C2 (amended) — `compress_pdf_bytes` is deterministic in its
input bytes, its level, and the value of the `PDF_COMPRESSION_ROUNDS`
process environment variable, which it reads itself: unset or
unparseable means 2 rounds, a parsed value is capped at 5, and the
environment influences the result only through this round count. -/
theorem spec_C2_env_round_count :
    compressionRounds none = 2 ∧
    (∀ e, compressionRounds e ≤ 5) ∧
    (∀ s n, parseU32 s = some n → compressionRounds (some s) = min n 5) ∧
    (∀ ctx env1 env2 input level,
      compressionRounds env1 = compressionRounds env2 →
      compressPdfBytes ctx env1 input level =
        compressPdfBytes ctx env2 input level) := by
  refine ⟨rfl, ?_, ?_, ?_⟩
  · intro e
    exact Nat.min_le_right _ 5
  · intro s n h
    simp [compressionRounds, h, Nat.min_comm]
  · intro ctx env1 env2 input level h
    simp only [compressPdfBytes, h]

/-- Witness for C2 (amended): the parse clause at `"7"` (capped to 5
rounds) and the only-through-rounds clause at two environments that
agree on the round count. -/
theorem spec_C2_env_round_count_witness :
    compressionRounds (some "7") = 5 ∧
    compressPdfBytes baseCtx none [] 75 =
      compressPdfBytes baseCtx (some "2") [] 75 := by
  constructor
  · have h := spec_C2_env_round_count.2.2.1 "7" 7 rfl
    simpa using h
  · exact spec_C2_env_round_count.2.2.2 baseCtx none (some "2") [] 75 rfl

/-- Claim C4 — quality mapping: after clamping the level to [10, 95],
the level→quality map is non-increasing across consecutive levels of
10..95, and maps level 25 to quality 90, level 50 to quality 70 and
level 75 to quality 50; the clamp itself always lands in [10, 95]. -/
theorem spec_C4_quality_map :
    (∀ i : Fin 85, jpegQuality (11 + i.val) ≤ jpegQuality (10 + i.val)) ∧
    jpegQuality 25 = 90 ∧ jpegQuality 50 = 70 ∧ jpegQuality 75 = 50 ∧
    (∀ l : Fin 256, 10 ≤ clampLevel l.val ∧ clampLevel l.val ≤ 95) := by
  refine ⟨by decide, by decide, by decide, by decide, by decide⟩

/-- Counterexample for C5: a *stream* object whose dictionary declares
`Type = Metadata` survives the strip phase unchanged — the retain
closure of lib.rs lines 65–72 only matches the plain-dictionary object
variant, so the claim's "regardless of which object variant carries
that dictionary" is false. -/
theorem spec_C5_counterexample :
    stripMetadata c5Doc = c5Doc ∧
    dictGet [("Type", Object.name "Metadata")] "Type" =
      some (.name "Metadata") :=
  ⟨rfl, rfl⟩

/-- Claim C5 (amended) — after the strip phase, every *plain
dictionary* object declaring `Type = Metadata` has been removed and
everything else (including stream objects, whatever their dictionary
declares) is kept; being a plain dictionary with `Type = Metadata` is
exactly the condition for removal. -/
theorem spec_C5_strip_metadata :
    (∀ o, keepNonMetadata o = false ↔
      ∃ d, o = Object.dictionary d ∧
        dictGet d "Type" = some (.name "Metadata")) ∧
    (∀ doc e, e ∈ stripMetadata doc → keepNonMetadata e.2 = true) ∧
    (∀ doc e, e ∈ doc → keepNonMetadata e.2 = true →
      e ∈ stripMetadata doc) := by
  refine ⟨?_, ?_, ?_⟩
  · intro o
    cases o with
    | dictionary d =>
      simp only [keepNonMetadata]
      cases hg : dictGet d "Type" with
      | none => simp [hg]
      | some v =>
        cases v with
        | name n =>
          by_cases hn : n = "Metadata" <;> simp [hg, hn]
        | null => simp [hg]
        | boolean b => simp [hg]
        | integer i => simp [hg]
        | real bp => simp [hg]
        | strObj s => simp [hg]
        | array a => simp [hg]
        | dictionary d2 => simp [hg]
        | stream d2 c => simp [hg]
        | reference r => simp [hg]
    | null => simp [keepNonMetadata]
    | boolean b => simp [keepNonMetadata]
    | integer i => simp [keepNonMetadata]
    | real bp => simp [keepNonMetadata]
    | name n => simp [keepNonMetadata]
    | strObj s => simp [keepNonMetadata]
    | array a => simp [keepNonMetadata]
    | stream d c => simp [keepNonMetadata]
    | reference r => simp [keepNonMetadata]
  · intro doc e he
    exact (List.mem_filter.mp he).2
  · intro doc e he hk
    exact List.mem_filter.mpr ⟨he, hk⟩

/-- Witness for C5 (amended): a plain `Type = Metadata` dictionary is
removed (clause 1 evaluated on it), and a kept harmless object is still
present (clause 3 applied at a one-object document). -/
theorem spec_C5_strip_metadata_witness :
    keepNonMetadata (Object.dictionary [("Type", .name "Metadata")]) =
      false ∧
    ((1, 0), Object.null) ∈ stripMetadata [((1, 0), Object.null)] := by
  constructor
  · exact (spec_C5_strip_metadata.1 _).mpr ⟨_, rfl, rfl⟩
  · exact spec_C5_strip_metadata.2.2 [((1, 0), Object.null)]
      ((1, 0), Object.null) (List.mem_singleton.mpr rfl) rfl

/-- Counterexample for C6: for declared dimensions 0×0 and decoded
length 0, the payload length equals `w*h` (so the claim requires the
grayscale treatment), but the first branch of the if-chain fires and
the code treats the stream as RGB. -/
theorem spec_C6_counterexample :
    inferComponents 0 0 0 = some 3 ∧ (0 : Nat) = 0 * 0 ∧
    (some 3 : Option Nat) ≠ some 1 := by
  refine ⟨rfl, rfl, by simp⟩

/-- Claim C6 (amended) — component inference, as the prioritized
if-chain of lib.rs lines 329–338: when the declared pixel count does
not overflow `u32` arithmetic, the stream is treated as RGB iff
`L = w*h*3`, as RGBA (alpha dropped) iff `L = w*h*4` and not the RGB
case, as grayscale iff `L = w*h` and neither earlier case, and is
rejected exactly when `L` matches none of the three products.  (The
cases are mutually exclusive except when `w*h = 0`, where the RGB
branch wins.) -/
theorem spec_C6_infer_components (w h L : Nat)
    (hwh : w * h < 2 ^ 32) :
    (inferComponents w h L = some 3 ↔ L = w * h * 3) ∧
    (inferComponents w h L = some 4 ↔
      L = w * h * 4 ∧ L ≠ w * h * 3) ∧
    (inferComponents w h L = some 1 ↔
      L = w * h ∧ L ≠ w * h * 3 ∧ L ≠ w * h * 4) ∧
    (inferComponents w h L = none ↔
      L ≠ w * h * 3 ∧ L ≠ w * h * 4 ∧ L ≠ w * h) := by
  simp only [inferComponents, Nat.mod_eq_of_lt hwh]
  by_cases h3 : L = w * h * 3
  · rw [if_pos h3]
    refine ⟨by simp [h3], ?_, ?_, ?_⟩
    · constructor
      · intro hc; simp at hc
      · rintro ⟨-, hne⟩; exact absurd h3 hne
    · constructor
      · intro hc; simp at hc
      · rintro ⟨-, hne, -⟩; exact absurd h3 hne
    · constructor
      · intro hc; simp at hc
      · rintro ⟨hne, -, -⟩; exact absurd h3 hne
  · rw [if_neg h3]
    by_cases h4 : L = w * h * 4
    · rw [if_pos h4]
      refine ⟨by simp [h3], ⟨fun _ => ⟨h4, h3⟩, fun _ => rfl⟩, ?_, ?_⟩
      · constructor
        · intro hc; simp at hc
        · rintro ⟨-, -, hne⟩; exact absurd h4 hne
      · constructor
        · intro hc; simp at hc
        · rintro ⟨-, hne, -⟩; exact absurd h4 hne
    · rw [if_neg h4]
      by_cases h1 : L = w * h
      · rw [if_pos h1]
        refine ⟨by simp [h3], ?_, ⟨fun _ => ⟨h1, h3, h4⟩, fun _ => rfl⟩, ?_⟩
        · constructor
          · intro hc; simp at hc
          · rintro ⟨hne, -⟩; exact absurd hne h4
        · constructor
          · intro hc; simp at hc
          · rintro ⟨-, -, hne⟩; exact absurd h1 hne
      · rw [if_neg h1]
        refine ⟨by simp [h3], ?_, ?_, by simp [h3, h4, h1]⟩
        · constructor
          · intro hc; simp at hc
          · rintro ⟨hne, -⟩; exact absurd hne h4
        · constructor
          · intro hc; simp at hc
          · rintro ⟨hne, -, -⟩; exact absurd hne h1

/-- Witness for C6 (amended): a 2×2 RGB stream (12 bytes) is inferred
as RGB, via the theorem at concrete input. -/
theorem spec_C6_infer_components_witness :
    inferComponents 2 2 12 = some 3 :=
  (spec_C6_infer_components 2 2 12 (by norm_num)).1.mpr rfl

/-- Claim C8 — fatal errors of `compress_pdf_bytes` arise only from the
initial parse or the final serialization: the call returns an error iff
`Document::load_mem` fails or `doc.save_to` fails on the fully
transformed document; and the per-stream phase (`compress_all_streams`)
has no error exit at all — decode failures, unsupported layouts, encode
failures and would-grow outcomes only ever keep the original stream. -/
theorem spec_C8_fatal_only_parse_or_serialize (ctx : Ctx)
    (env : Option String) (input : List Nat) (level : Nat) :
    ((∃ e, compressPdfBytes ctx env input level = .error e) ↔
      ctx.loadMem input = none ∨
      ∃ doc, ctx.loadMem input = some doc ∧
        ctx.saveTo (transformedDoc ctx env level doc) = none) ∧
    (∀ q d, compressAllStreamsE ctx q d =
      .ok (compressAllStreams ctx q d)) := by
  refine ⟨?_, fun q d => rfl⟩
  unfold compressPdfBytes transformedDoc compressAllStreamsE
  cases hl : ctx.loadMem input with
  | none => simp [hl]
  | some doc =>
    cases hs : ctx.saveTo (ctx.pruneObjects (ctx.docCompress
        ((compactRound ctx)^[compressionRounds env]
          (stripMetadata (compressAllStreams ctx
            (jpegQuality (clampLevel level))
            (removeDuplicateObjects ctx.streamHash doc).2))))) with
    | none => simp [hl, hs]
    | some out => simp [hl, hs]

/-- Witness for C8: with the trivial context (whose parser fails on
every input), the call errors, via the theorem's iff. -/
theorem spec_C8_witness :
    compressPdfBytes baseCtx none [] 75 = .error "Failed to load PDF" := by
  have h := (spec_C8_fatal_only_parse_or_serialize baseCtx none [] 75).1.mpr
    (Or.inl rfl)
  exact rfl

/-- Correspondence between the hash map lookup of
`remove_duplicate_objects` and membership of the hash among the
already-seen stream hashes. -/
theorem find_key_isSome_eq_any (m : List (Nat × ObjectId)) (hv : Nat) :
    (m.find? (fun p => p.1 = hv)).isSome =
      (m.map Prod.fst).any (fun x => x = hv) := by
  induction m with
  | nil => rfl
  | cons hd tl ih =>
    by_cases hh : hd.1 = hv
    · rw [List.find?_cons_of_pos _ (by simp [hh])]
      simp [hh]
    · rw [List.find?_cons_of_neg _ (by simp [hh])]
      simp only [List.map_cons, List.any_cons]
      rw [show (decide (hd.1 = hv)) = false by simp [hh]]
      simpa using ih

/-- The duplicate-counting fold of `remove_duplicate_objects` counts
exactly the streams whose hash was already seen. -/
theorem dedup_fold_count (hash : List Nat → Nat) :
    ∀ (objs : List (ObjectId × Object)) (m : List (Nat × ObjectId))
      (t : List (ObjectId × ObjectId)),
      (objs.foldl
        (fun (acc : List (Nat × ObjectId) × List (ObjectId × ObjectId)) e =>
          match e.2 with
          | .stream _ c =>
            let hv := hash c
            match acc.1.find? (fun p => p.1 = hv) with
            | some existing => (acc.1, acc.2 ++ [(e.1, existing.2)])
            | none => (acc.1 ++ [(hv, e.1)], acc.2)
          | _ => acc) (m, t)).2.length =
        t.length + dupCount hash (m.map Prod.fst) (streamContents objs) := by
  intro objs
  induction objs with
  | nil => intro m t; simp [streamContents, dupCount]
  | cons e rest ih =>
    intro m t
    rcases e with ⟨eid, eo⟩
    cases eo with
    | stream d c =>
      simp only [List.foldl_cons]
      have hsc : streamContents ((eid, Object.stream d c) :: rest) =
          c :: streamContents rest := by
        simp [streamContents]
      rw [hsc]
      cases hf : m.find? (fun p => p.1 = hash c) with
      | some existing =>
        have hany : (m.map Prod.fst).any (fun x => x = hash c) = true := by
          rw [← find_key_isSome_eq_any, hf]; rfl
        simp only [hf, dupCount, hany, if_pos]
        rw [ih m (t ++ [(eid, existing.2)])]
        simp [Nat.add_assoc, Nat.add_comm 1]
      | none =>
        have hany : (m.map Prod.fst).any (fun x => x = hash c) = false := by
          rw [← find_key_isSome_eq_any, hf]; rfl
        simp only [hf, dupCount, hany, Bool.false_eq_true, if_neg,
          not_false_eq_true]
        rw [ih (m ++ [(hash c, eid)]) t]
        simp
    | null => simpa [streamContents] using ih m t
    | boolean b => simpa [streamContents] using ih m t
    | integer i => simpa [streamContents] using ih m t
    | real bp => simpa [streamContents] using ih m t
    | name n => simpa [streamContents] using ih m t
    | strObj s => simpa [streamContents] using ih m t
    | array a => simpa [streamContents] using ih m t
    | dictionary d2 => simpa [streamContents] using ih m t
    | reference r => simpa [streamContents] using ih m t

/-- Claim C9 — `remove_duplicate_objects` is a pure counter: it returns
the number of stream objects whose content hash equals the hash of an
earlier-seen stream, and leaves the document's object map exactly
unchanged (the duplicate→canonical pairs are computed and discarded),
so deduplication never alters what is serialized. -/
theorem spec_C9_dedup_is_noop (hash : List Nat → Nat) (doc : PDoc) :
    removeDuplicateObjects hash doc =
      (dupCount hash [] (streamContents doc), doc) := by
  have h := dedup_fold_count hash doc [] []
  simp only [removeDuplicateObjects]
  rw [Prod.mk.injEq]
  exact ⟨by simpa using h, rfl⟩

/-- Claim C10 — the standalone image path has no size gate: whenever
format detection, decode and the chosen encoding succeed, the encoder's
bytes are returned as-is, with no comparison against the input length
(both for an explicit target format and for the lossy-source automatic
path). -/
theorem spec_C10_no_size_gate :
    (∀ ctx input level fstr tf img out fmt,
      ctx.guessFormat input = some fmt →
      ctx.loadFromMemory input = some img →
      parseTargetFormat fstr = some tf →
      encodeImageWithQuality ctx img (jpegQuality (clampLevel level)) tf =
        .ok out →
      compressImageBytes ctx input level (some fstr) =
        .ok (out, extOf tf)) ∧
    (∀ ctx input level img out,
      ctx.guessFormat input = some .jpeg →
      ctx.loadFromMemory input = some img →
      encodeImageWithQuality ctx img (jpegQuality (clampLevel level))
        .jpeg = .ok out →
      compressImageBytes ctx input level none = .ok (out, "jpg")) := by
  constructor
  · intro ctx input level fstr tf img out fmt hg hl hp he
    unfold compressImageBytes
    simp [hg, hl, hp, he]
  · intro ctx input level img out hg hl he
    unfold compressImageBytes
    simp [hg, hl, he, extOf]

/-- Witness for C10: a two-byte JPEG-sourced input whose re-encoding
yields five bytes is returned as those five bytes — strictly larger
than the input. -/
theorem spec_C10_witness :
    compressImageBytes c10Ctx [1, 2] 75 none = .ok ([7, 7, 7, 7, 7], "jpg") ∧
    ([7, 7, 7, 7, 7] : List Nat).length > ([1, 2] : List Nat).length := by
  refine ⟨?_, by decide⟩
  exact spec_C10_no_size_gate.2 c10Ctx [1, 2] 75 ⟨1, 1, []⟩ [7, 7, 7, 7, 7]
    rfl rfl (by rfl)

/-! ## Correctness of the embedded floating point arithmetic -/

theorem log2p_correct :
    ∀ (f n : Nat), 0 < n → n < 2 ^ f →
      2 ^ log2p f n ≤ n ∧ n < 2 ^ (log2p f n + 1) := by
  intro f
  induction f with
  | zero =>
    intro n h0 hf
    simp at hf
    omega
  | succ f ih =>
    intro n h0 hf
    by_cases h1 : n ≤ 1
    · have hn1 : n = 1 := by omega
      subst hn1
      simp [log2p]
    · have h2 : 2 ≤ n := by omega
      have hhalf : n / 2 < 2 ^ f := by
        rw [Nat.div_lt_iff_lt_mul (by norm_num)]
        calc n < 2 ^ (f + 1) := hf
        _ = 2 ^ f * 2 := by ring
      have h0half : 0 < n / 2 := by omega
      obtain ⟨ha, hb⟩ := ih (n / 2) h0half hhalf
      have hstep : log2p (f + 1) n = log2p f (n / 2) + 1 := by
        simp [log2p, h1]
      rw [hstep]
      constructor
      · calc 2 ^ (log2p f (n / 2) + 1) = 2 * 2 ^ log2p f (n / 2) := by ring
        _ ≤ 2 * (n / 2) := by omega
        _ ≤ n := by omega
      · have : n / 2 + 1 ≤ 2 ^ (log2p f (n / 2) + 1) := hb
        calc n < 2 * (n / 2) + 2 := by omega
        _ ≤ 2 * 2 ^ (log2p f (n / 2) + 1) := by omega
        _ = 2 ^ (log2p f (n / 2) + 1 + 1) := by ring

theorem bits_correct (n : Nat) (h0 : 0 < n) (h128 : n < 2 ^ 128) :
    2 ^ (bits n - 1) ≤ n ∧ n < 2 ^ bits n ∧ 1 ≤ bits n := by
  have h := log2p_correct 128 n h0 h128
  unfold bits
  rw [if_neg (by omega)]
  refine ⟨by simpa using h.1, by simpa using h.2, by omega⟩

theorem rneDiv_ge_div (a b : Nat) : a / b ≤ rneDiv a b := by
  unfold rneDiv
  split <;> omega

theorem rneDiv_le_div_succ (a b : Nat) : rneDiv a b ≤ a / b + 1 := by
  unfold rneDiv
  split <;> omega

/-- Round-to-nearest property of `rneDiv`, in multiplied-through `Nat`
form: `|rneDiv a b - a/b| ≤ 1/2`. -/
theorem rneDiv_near (a b : Nat) (hb : 0 < b) :
    2 * (rneDiv a b) * b ≤ 2 * a + b ∧ 2 * a ≤ (2 * rneDiv a b + 1) * b := by
  have hmod := Nat.div_add_mod a b
  have hlt : a % b < b := Nat.mod_lt a hb
  unfold rneDiv
  split
  case isTrue h =>
    have h2 : b ≤ 2 * (a % b) := by omega
    constructor
    · calc 2 * (a / b + 1) * b = 2 * (b * (a / b)) + 2 * b := by ring
      _ ≤ 2 * (b * (a / b)) + 2 * (a % b) + b := by omega
      _ = 2 * (b * (a / b) + a % b) + b := by ring
      _ = 2 * a + b := by rw [hmod]
    · calc 2 * a = 2 * (b * (a / b) + a % b) := by rw [hmod]
      _ = 2 * (b * (a / b)) + 2 * (a % b) := by ring
      _ ≤ 2 * (b * (a / b)) + 3 * b := by omega
      _ = (2 * (a / b + 1) + 1) * b := by ring
  case isFalse h =>
    have h2 : 2 * (a % b) ≤ b := by omega
    constructor
    · have h3 : a / b * b ≤ a := Nat.div_mul_le_self a b
      calc 2 * (a / b) * b = 2 * (a / b * b) := by ring
      _ ≤ 2 * a := by omega
      _ ≤ 2 * a + b := by omega
    · calc 2 * a = 2 * (b * (a / b) + a % b) := by rw [hmod]
      _ = 2 * (b * (a / b)) + 2 * (a % b) := by ring
      _ ≤ 2 * (b * (a / b)) + b := by omega
      _ = (2 * (a / b) + 1) * b := by ring

theorem scalePair_pos (N D : Nat) (t : Int) (hD : 0 < D) :
    0 < (scalePair N D t).2 := by
  unfold scalePair
  split <;> simp <;> positivity

theorem scalePair_fst_pos (N D : Nat) (t : Int) (hN : 0 < N) :
    0 < (scalePair N D t).1 := by
  unfold scalePair
  split <;> simp <;> positivity

/-- The scaled pair represents the rational `(N/D) * 2^t`. -/
theorem scalePair_ratio (N D : Nat) (t : Int) (hD : 0 < D) :
    ((scalePair N D t).1 : ℚ) / ((scalePair N D t).2 : ℚ) =
      (N : ℚ) / (D : ℚ) * (2 : ℚ) ^ t := by
  have hDq : (D : ℚ) ≠ 0 := by positivity
  unfold scalePair
  split
  case isTrue h =>
    have h2 : (2 : ℚ) ^ t = (2 : ℚ) ^ (t.toNat : ℕ) := by
      conv_lhs => rw [← Int.toNat_of_nonneg h]
      rw [zpow_natCast]
    rw [h2]
    push_cast
    field_simp
  case isFalse h =>
    have hneg : (0 : ℤ) ≤ -t := by omega
    have h2 : (2 : ℚ) ^ t = ((2 : ℚ) ^ (-t))⁻¹ := by
      rw [← zpow_neg, neg_neg]
    have h3 : (2 : ℚ) ^ (-t) = (2 : ℚ) ^ ((-t).toNat : ℕ) := by
      conv_lhs => rw [← Int.toNat_of_nonneg hneg]
      rw [zpow_natCast]
    rw [h2, h3]
    push_cast
    field_simp

/-- Condition transfer: a `Nat` comparison on a scaled pair expresses a
`ℚ` comparison against the represented rational. -/
theorem scalePair_le_iff (N D : Nat) (t : Int) (hD : 0 < D) (K : Nat) :
    (K * (scalePair N D t).2 ≤ (scalePair N D t).1) ↔
      ((K : ℚ) ≤ (N : ℚ) / (D : ℚ) * (2 : ℚ) ^ t) := by
  have hB := scalePair_pos N D t hD
  have hBq : (0 : ℚ) < ((scalePair N D t).2 : ℚ) := by exact_mod_cast hB
  have hr := scalePair_ratio N D t hD
  rw [div_eq_iff (by positivity)] at hr
  constructor
  · intro h
    have hq : ((K : ℚ)) * ((scalePair N D t).2 : ℚ) ≤
        ((scalePair N D t).1 : ℚ) := by exact_mod_cast h
    rw [hr] at hq
    exact le_of_mul_le_mul_right hq hBq
  · intro h
    have hq : ((K : ℚ)) * ((scalePair N D t).2 : ℚ) ≤
        ((scalePair N D t).1 : ℚ) := by
      rw [hr]
      exact mul_le_mul_of_nonneg_right h (le_of_lt hBq)
    exact_mod_cast hq

theorem scalePair_lt_iff (N D : Nat) (t : Int) (hD : 0 < D) (K : Nat) :
    ((scalePair N D t).1 < K * (scalePair N D t).2) ↔
      ((N : ℚ) / (D : ℚ) * (2 : ℚ) ^ t < (K : ℚ)) := by
  rw [← not_le, ← not_le, scalePair_le_iff N D t hD K]

/-- The first-guess shift places the represented rational in
`[2^(p-1), 2^(p+1))`. -/
theorem fpT0_window (p N D : Nat) (hp : 1 ≤ p)
    (hN : 0 < N) (hD : 0 < D) (hN128 : N < 2 ^ 128) (hD128 : D < 2 ^ 128) :
    (2 : ℚ) ^ ((p : Int) - 1) ≤ (N : ℚ) / (D : ℚ) * (2 : ℚ) ^ fpT0 p N D ∧
    (N : ℚ) / (D : ℚ) * (2 : ℚ) ^ fpT0 p N D < (2 : ℚ) ^ ((p : Int) + 1) := by
  obtain ⟨hN1, hN2, hNb⟩ := bits_correct N hN hN128
  obtain ⟨hD1, hD2, hDb⟩ := bits_correct D hD hD128
  have hNq1 : ((2 : ℚ)) ^ ((bits N : Int) - 1) ≤ (N : ℚ) := by
    have : ((2 ^ (bits N - 1) : ℕ) : ℚ) ≤ (N : ℚ) := by exact_mod_cast hN1
    calc (2 : ℚ) ^ ((bits N : Int) - 1)
        = (2 : ℚ) ^ ((bits N - 1 : ℕ) : Int) := by
          congr 1
          omega
      _ = ((2 ^ (bits N - 1 : ℕ) : ℕ) : ℚ) := by push_cast; rw [zpow_natCast]
      _ ≤ (N : ℚ) := this
  have hNq2 : (N : ℚ) < (2 : ℚ) ^ ((bits N : Int)) := by
    have : (N : ℚ) < ((2 ^ bits N : ℕ) : ℚ) := by exact_mod_cast hN2
    calc (N : ℚ) < ((2 ^ bits N : ℕ) : ℚ) := this
      _ = (2 : ℚ) ^ ((bits N : ℕ) : Int) := by push_cast; rw [zpow_natCast]
  have hDq1 : ((2 : ℚ)) ^ ((bits D : Int) - 1) ≤ (D : ℚ) := by
    have : ((2 ^ (bits D - 1) : ℕ) : ℚ) ≤ (D : ℚ) := by exact_mod_cast hD1
    calc (2 : ℚ) ^ ((bits D : Int) - 1)
        = (2 : ℚ) ^ ((bits D - 1 : ℕ) : Int) := by
          congr 1
          omega
      _ = ((2 ^ (bits D - 1 : ℕ) : ℕ) : ℚ) := by push_cast; rw [zpow_natCast]
      _ ≤ (D : ℚ) := this
  have hDq2 : (D : ℚ) < (2 : ℚ) ^ ((bits D : Int)) := by
    have : (D : ℚ) < ((2 ^ bits D : ℕ) : ℚ) := by exact_mod_cast hD2
    calc (D : ℚ) < ((2 ^ bits D : ℕ) : ℚ) := this
      _ = (2 : ℚ) ^ ((bits D : ℕ) : Int) := by push_cast; rw [zpow_natCast]
  have hDpos : (0 : ℚ) < (D : ℚ) := by exact_mod_cast hD
  have h2 : (0 : ℚ) < 2 := by norm_num
  constructor
  · have hstep : (2 : ℚ) ^ ((bits N : Int) - 1) / (2 : ℚ) ^ ((bits D : Int)) ≤
        (N : ℚ) / (D : ℚ) := by
      gcongr <;> first | exact le_of_lt hDq2 | exact hNq1 | positivity
    have hmul := mul_le_mul_of_nonneg_right hstep
      (le_of_lt (zpow_pos h2 (fpT0 p N D)))
    calc (2 : ℚ) ^ ((p : Int) - 1)
        = (2 : ℚ) ^ ((bits N : Int) - 1) / (2 : ℚ) ^ ((bits D : Int)) *
            (2 : ℚ) ^ fpT0 p N D := by
          rw [div_eq_mul_inv, ← zpow_neg, ← zpow_add₀ (by norm_num : (2:ℚ) ≠ 0),
            ← zpow_add₀ (by norm_num : (2:ℚ) ≠ 0)]
          congr 1
          unfold fpT0
          ring
      _ ≤ (N : ℚ) / (D : ℚ) * (2 : ℚ) ^ fpT0 p N D := hmul
  · have hstep : (N : ℚ) / (D : ℚ) <
        (2 : ℚ) ^ ((bits N : Int)) / (2 : ℚ) ^ ((bits D : Int) - 1) := by
      gcongr <;> first | exact hNq2 | exact hDq1 | positivity
    have hmul := mul_lt_mul_of_pos_right hstep (zpow_pos h2 (fpT0 p N D))
    calc (N : ℚ) / (D : ℚ) * (2 : ℚ) ^ fpT0 p N D
        < (2 : ℚ) ^ ((bits N : Int)) / (2 : ℚ) ^ ((bits D : Int) - 1) *
            (2 : ℚ) ^ fpT0 p N D := hmul
      _ = (2 : ℚ) ^ ((p : Int) + 1) := by
          rw [div_eq_mul_inv, ← zpow_neg, ← zpow_add₀ (by norm_num : (2:ℚ) ≠ 0),
            ← zpow_add₀ (by norm_num : (2:ℚ) ≠ 0)]
          congr 1
          unfold fpT0
          ring

/-- After the one-step correction, the scaled quotient lies in
`[2^(p-1), 2^p)`. -/
theorem fpT_sandwich (p N D : Nat) (hp : 1 ≤ p)
    (hN : 0 < N) (hD : 0 < D) (hN128 : N < 2 ^ 128) (hD128 : D < 2 ^ 128) :
    2 ^ (p - 1) * (scalePair N D (fpT p N D)).2 ≤
      (scalePair N D (fpT p N D)).1 ∧
    (scalePair N D (fpT p N D)).1 < 2 ^ p * (scalePair N D (fpT p N D)).2 := by
  obtain ⟨hw1, hw2⟩ := fpT0_window p N D hp hN hD hN128 hD128
  have hcast1 : ((2 ^ (p - 1) : ℕ) : ℚ) = (2 : ℚ) ^ ((p : Int) - 1) := by
    push_cast
    rw [← zpow_natCast (2 : ℚ) (p - 1)]
    congr 1
    omega
  have hcast2 : ((2 ^ p : ℕ) : ℚ) = (2 : ℚ) ^ ((p : Int)) := by
    push_cast
    rw [← zpow_natCast (2 : ℚ) p]
  have hsplit : fpT p N D = fpT0 p N D - 1 ∨
      (fpT p N D = fpT0 p N D ∧
        ¬ (2 : ℚ) ^ ((p : Int)) ≤ (N : ℚ) / (D : ℚ) * (2 : ℚ) ^ fpT0 p N D) := by
    unfold fpT
    by_cases hc1 : 2 ^ p * (scalePair N D (fpT0 p N D)).2 ≤
        (scalePair N D (fpT0 p N D)).1
    · left
      simp only [ge_iff_le, hc1, if_pos]
    · have hc1q := (not_iff_not.mpr
        (scalePair_le_iff N D (fpT0 p N D) hD (2 ^ p))).mp hc1
      rw [hcast2] at hc1q
      by_cases hc2 : (scalePair N D (fpT0 p N D)).1 <
          2 ^ (p - 1) * (scalePair N D (fpT0 p N D)).2
      · exfalso
        have hc2q := (scalePair_lt_iff N D (fpT0 p N D) hD (2 ^ (p - 1))).mp hc2
        rw [hcast1] at hc2q
        exact absurd hw1 (not_le.mpr hc2q)
      · right
        constructor
        · simp only [ge_iff_le]
          rw [if_neg (by simpa using hc1), if_neg hc2]
        · exact hc1q
  have hrho_shift : (N : ℚ) / (D : ℚ) * (2 : ℚ) ^ (fpT0 p N D - 1) =
      (N : ℚ) / (D : ℚ) * (2 : ℚ) ^ fpT0 p N D / 2 := by
    rw [zpow_sub₀ (by norm_num : (2:ℚ) ≠ 0)]
    ring
  rcases hsplit with ht | ⟨ht, hlt⟩
  · rw [ht]
    constructor
    · rw [scalePair_le_iff N D _ hD, hcast1, hrho_shift]
      have : (2 : ℚ) ^ ((p : Int)) ≤ (N : ℚ) / (D : ℚ) *
          (2 : ℚ) ^ fpT0 p N D := by
        -- the taken branch had the Nat condition; recover it
        by_contra hcon
        -- then fpT p N D would not be t0 - 1 unless the branch fired
        -- (handled below by re-deriving the branch condition)
        unfold fpT at ht
        by_cases hc1 : 2 ^ p * (scalePair N D (fpT0 p N D)).2 ≤
            (scalePair N D (fpT0 p N D)).1
        · have hc1q := (scalePair_le_iff N D (fpT0 p N D) hD (2 ^ p)).mp hc1
          rw [hcast2] at hc1q
          exact hcon hc1q
        · rw [if_neg (by simpa using hc1)] at ht
          split at ht <;> omega
      calc (2 : ℚ) ^ ((p : Int) - 1) =
          (2 : ℚ) ^ ((p : Int)) / 2 := by
            rw [zpow_sub₀ (by norm_num : (2:ℚ) ≠ 0)]
            norm_num
        _ ≤ (N : ℚ) / (D : ℚ) * (2 : ℚ) ^ fpT0 p N D / 2 := by linarith
    · rw [scalePair_lt_iff N D _ hD, hcast2, hrho_shift]
      have h2 : (N : ℚ) / (D : ℚ) * (2 : ℚ) ^ fpT0 p N D <
          (2 : ℚ) ^ ((p : Int) + 1) := hw2
      have : (2 : ℚ) ^ ((p : Int) + 1) = 2 * (2 : ℚ) ^ ((p : Int)) := by
        rw [zpow_add₀ (by norm_num : (2:ℚ) ≠ 0)]
        ring
      linarith [this ▸ h2]
  · rw [ht]
    constructor
    · rw [scalePair_le_iff N D _ hD, hcast1]
      exact hw1
    · rw [scalePair_lt_iff N D _ hD, hcast2]
      exact not_le.mp hlt

/-- Full specification of the rounding primitive: significand range,
two-sided relative error `2^(-p)`, and the two grid bounds (the result
is at least every representable-on-its-grid value below the exact
rational, and at most every one above it). -/
theorem fpOfRat_spec (p N D : Nat) (e : Int) (hp : 1 ≤ p)
    (hN : 0 < N) (hD : 0 < D) (hN128 : N < 2 ^ 128) (hD128 : D < 2 ^ 128) :
    (2 ^ (p - 1) ≤ (fpOfRat p N D e).m ∧ (fpOfRat p N D e).m < 2 ^ p) ∧
    ((N : ℚ) / (D : ℚ) * (2 : ℚ) ^ e * (1 - (2 : ℚ) ^ (-(p : Int))) ≤
        fpVal (fpOfRat p N D e) ∧
      fpVal (fpOfRat p N D e) ≤
        (N : ℚ) / (D : ℚ) * (2 : ℚ) ^ e * (1 + (2 : ℚ) ^ (-(p : Int)))) ∧
    (∀ g : Nat,
      (g : ℚ) * (2 : ℚ) ^ (fpOfRat p N D e).e ≤
          (N : ℚ) / (D : ℚ) * (2 : ℚ) ^ e →
        (g : ℚ) * (2 : ℚ) ^ (fpOfRat p N D e).e ≤ fpVal (fpOfRat p N D e)) ∧
    (∀ g : Nat,
      (N : ℚ) / (D : ℚ) * (2 : ℚ) ^ e ≤
          (g : ℚ) * (2 : ℚ) ^ (fpOfRat p N D e).e →
        fpVal (fpOfRat p N D e) ≤ (g : ℚ) * (2 : ℚ) ^ (fpOfRat p N D e).e) := by
  obtain ⟨hs1, hs2⟩ := fpT_sandwich p N D hp hN hD hN128 hD128
  set t := fpT p N D with hts
  set A := (scalePair N D t).1 with hAs
  set B := (scalePair N D t).2 with hBs
  have hB : 0 < B := scalePair_pos N D t hD
  have hA : 0 < A := scalePair_fst_pos N D t hN
  have hBq : (0 : ℚ) < (B : ℚ) := by exact_mod_cast hB
  set m0 := rneDiv A B with hm0s
  have hx : fpOfRat p N D e =
      if m0 = 2 ^ p then (⟨2 ^ (p - 1), e - t + 1⟩ : FP)
      else ⟨m0, e - t⟩ := by
    unfold fpOfRat
    rw [if_neg (by omega)]
  -- significand bounds for m0
  have hq1 : 2 ^ (p - 1) ≤ A / B := by
    rw [Nat.le_div_iff_mul_le hB]
    exact hs1
  have hq2 : A / B < 2 ^ p := by
    rw [Nat.div_lt_iff_lt_mul hB]
    exact hs2
  have hm1 : 2 ^ (p - 1) ≤ m0 := le_trans hq1 (rneDiv_ge_div A B)
  have hm2 : m0 ≤ 2 ^ p :=
    le_trans (rneDiv_le_div_succ A B) (Nat.succ_le_of_lt hq2)
  -- rational value of the pair
  have hABr : (A : ℚ) / (B : ℚ) = (N : ℚ) / (D : ℚ) * (2 : ℚ) ^ t :=
    scalePair_ratio N D t hD
  have h20 : (2 : ℚ) ≠ 0 := by norm_num
  have hpow : (2 : ℚ) ^ ((p : Int) - 1) * 2 = (2 : ℚ) ^ ((p : Int)) := by
    rw [mul_comm, ← zpow_one_add₀ h20]
    congr 1
    ring
  set E : Int := e - t with hEs
  have hEpos : (0 : ℚ) < (2 : ℚ) ^ E := zpow_pos (by norm_num) E
  set r : ℚ := (N : ℚ) / (D : ℚ) * (2 : ℚ) ^ e with hrs
  have hr_eq : r = (A : ℚ) / (B : ℚ) * (2 : ℚ) ^ E := by
    have he2 : t + (e - t) = e := by ring
    rw [hrs, hABr, mul_assoc, ← zpow_add₀ h20, hEs, he2]
  -- |m0 - A/B| ≤ 1/2 in ℚ
  obtain ⟨hn1, hn2⟩ := rneDiv_near A B hB
  have h2B : (0 : ℚ) < 2 * (B : ℚ) := by positivity
  have hnear1 : (m0 : ℚ) ≤ (A : ℚ) / (B : ℚ) + 1 / 2 := by
    have hc : ((2 * m0 * B : ℕ) : ℚ) ≤ ((2 * A + B : ℕ) : ℚ) := by
      exact_mod_cast hn1
    push_cast at hc
    rw [show (A : ℚ) / (B : ℚ) + 1 / 2 =
      (2 * (A : ℚ) + (B : ℚ)) / (2 * (B : ℚ)) by field_simp; ring]
    rw [le_div_iff h2B]
    ring_nf
    ring_nf at hc
    linarith
  have hnear2 : (A : ℚ) / (B : ℚ) - 1 / 2 ≤ (m0 : ℚ) := by
    have hc : ((2 * A : ℕ) : ℚ) ≤ (((2 * m0 + 1) * B : ℕ) : ℚ) := by
      exact_mod_cast hn2
    push_cast at hc
    rw [show (A : ℚ) / (B : ℚ) - 1 / 2 =
      (2 * (A : ℚ) - (B : ℚ)) / (2 * (B : ℚ)) by field_simp; ring]
    rw [div_le_iff h2B]
    ring_nf
    ring_nf at hc
    linarith
  -- cast versions of the significand bounds
  have hABq1 : (2 : ℚ) ^ ((p : Int) - 1) ≤ (A : ℚ) / (B : ℚ) := by
    have hc : ((2 ^ (p - 1) * B : ℕ) : ℚ) ≤ (A : ℚ) := by exact_mod_cast hs1
    push_cast at hc
    rw [le_div_iff hBq]
    calc (2 : ℚ) ^ ((p : Int) - 1) * (B : ℚ)
        = (2 : ℚ) ^ ((p - 1 : ℕ) : Int) * (B : ℚ) := by
          congr 2
          omega
      _ = (2 : ℚ) ^ (p - 1 : ℕ) * (B : ℚ) := by rw [zpow_natCast]
      _ ≤ (A : ℚ) := hc
  have hABq2 : (A : ℚ) / (B : ℚ) < (2 : ℚ) ^ ((p : Int)) := by
    have hc : (A : ℚ) < ((2 ^ p * B : ℕ) : ℚ) := by exact_mod_cast hs2
    push_cast at hc
    rw [div_lt_iff hBq]
    calc (A : ℚ) < (2 : ℚ) ^ (p : ℕ) * (B : ℚ) := hc
      _ = (2 : ℚ) ^ ((p : ℕ) : Int) * (B : ℚ) := by rw [zpow_natCast]
  -- the half-grid-step is below r * 2^(-p)
  have hhalf : (2 : ℚ) ^ E / 2 ≤ r * (2 : ℚ) ^ (-(p : Int)) := by
    rw [hr_eq]
    have h1 : (2 : ℚ) ^ ((p : Int) - 1) * (2 : ℚ) ^ E ≤
        (A : ℚ) / (B : ℚ) * (2 : ℚ) ^ E :=
      mul_le_mul_of_nonneg_right hABq1 (le_of_lt hEpos)
    have h2 := mul_le_mul_of_nonneg_right h1
      (le_of_lt (zpow_pos (show (0:ℚ) < 2 by norm_num) (-(p : Int))))
    calc (2 : ℚ) ^ E / 2
        = (2 : ℚ) ^ ((p : Int) - 1) * (2 : ℚ) ^ E * (2 : ℚ) ^ (-(p : Int)) := by
          rw [mul_comm ((2:ℚ) ^ ((p : Int) - 1)), mul_assoc,
            ← zpow_add₀ h20]
          rw [show (p : Int) - 1 + -(p : Int) = -1 by ring]
          rw [zpow_neg_one]
          ring
      _ ≤ (A : ℚ) / (B : ℚ) * (2 : ℚ) ^ E * (2 : ℚ) ^ (-(p : Int)) := h2
  -- the value of the result is m0 * 2^E in both branches
  have hval : fpVal (fpOfRat p N D e) = (m0 : ℚ) * (2 : ℚ) ^ E := by
    rw [hx]
    split
    case isTrue hcarry =>
      simp only [fpVal]
      rw [hcarry]
      push_cast
      rw [show e - t + 1 = E + 1 by omega, zpow_add₀ h20, zpow_one,
        ← zpow_natCast (2 : ℚ) (p - 1), ← zpow_natCast (2 : ℚ) p]
      rw [show ((p - 1 : ℕ) : Int) = (p : Int) - 1 by omega]
      rw [show ((p : ℕ) : Int) = (p : Int) from rfl]
      calc (2 : ℚ) ^ ((p : Int) - 1) * ((2 : ℚ) ^ E * 2)
          = (2 : ℚ) ^ ((p : Int) - 1) * 2 * (2 : ℚ) ^ E := by ring
        _ = (2 : ℚ) ^ ((p : Int)) * (2 : ℚ) ^ E := by rw [hpow]
    case isFalse hcarry =>
      simp only [fpVal]
  -- value bounds
  have hub : fpVal (fpOfRat p N D e) ≤ r * (1 + (2 : ℚ) ^ (-(p : Int))) := by
    rw [hval]
    have h1 : (m0 : ℚ) * (2 : ℚ) ^ E ≤
        ((A : ℚ) / (B : ℚ) + 1 / 2) * (2 : ℚ) ^ E :=
      mul_le_mul_of_nonneg_right hnear1 (le_of_lt hEpos)
    calc (m0 : ℚ) * (2 : ℚ) ^ E
        ≤ ((A : ℚ) / (B : ℚ) + 1 / 2) * (2 : ℚ) ^ E := h1
      _ = (A : ℚ) / (B : ℚ) * (2 : ℚ) ^ E + (2 : ℚ) ^ E / 2 := by ring
      _ = r + (2 : ℚ) ^ E / 2 := by rw [← hr_eq]
      _ ≤ r + r * (2 : ℚ) ^ (-(p : Int)) := by linarith [hhalf]
      _ = r * (1 + (2 : ℚ) ^ (-(p : Int))) := by ring
  have hlb : r * (1 - (2 : ℚ) ^ (-(p : Int))) ≤ fpVal (fpOfRat p N D e) := by
    rw [hval]
    have h1 : ((A : ℚ) / (B : ℚ) - 1 / 2) * (2 : ℚ) ^ E ≤
        (m0 : ℚ) * (2 : ℚ) ^ E :=
      mul_le_mul_of_nonneg_right hnear2 (le_of_lt hEpos)
    calc r * (1 - (2 : ℚ) ^ (-(p : Int)))
        = r - r * (2 : ℚ) ^ (-(p : Int)) := by ring
      _ ≤ r - (2 : ℚ) ^ E / 2 := by linarith [hhalf]
      _ = (A : ℚ) / (B : ℚ) * (2 : ℚ) ^ E - (2 : ℚ) ^ E / 2 := by rw [← hr_eq]
      _ = ((A : ℚ) / (B : ℚ) - 1 / 2) * (2 : ℚ) ^ E := by ring
      _ ≤ (m0 : ℚ) * (2 : ℚ) ^ E := h1
  refine ⟨?_, ⟨hlb, hub⟩, ?_, ?_⟩
  · rw [hx]
    split
    case isTrue hcarry =>
      constructor
      · exact le_refl _
      · have h1 : p - 1 < p := Nat.sub_lt (by omega) (by norm_num)
        exact Nat.pow_lt_pow_right (by norm_num) h1
    case isFalse hcarry =>
      exact ⟨hm1, lt_of_le_of_ne hm2 hcarry⟩
  · -- lower grid bound
    intro g hg
    rw [hval]
    rw [hx] at hg ⊢
    split at hg
    case isTrue hcarry =>
      rw [if_pos hcarry]
      dsimp only
      -- x.e = E + 1 here; from g * 2^(E+1) ≤ r deduce 2g ≤ A/B
      have hEe : e - t + 1 = E + 1 := by omega
      rw [hEe] at hg ⊢
      have hg2 : ((2 * g : ℕ) : ℚ) * (2 : ℚ) ^ E ≤ (A : ℚ) / (B : ℚ) *
          (2 : ℚ) ^ E := by
        rw [← hr_eq]
        push_cast
        calc (2 : ℚ) * (g : ℚ) * (2 : ℚ) ^ E
            = (g : ℚ) * ((2 : ℚ) ^ E * 2) := by ring
          _ = (g : ℚ) * (2 : ℚ) ^ (E + 1) := by
              rw [zpow_add₀ h20, zpow_one]
          _ ≤ r := hg
      have hgAB : ((2 * g : ℕ) : ℚ) ≤ (A : ℚ) / (B : ℚ) :=
        le_of_mul_le_mul_right hg2 hEpos
      have hgN : 2 * g * B ≤ A := by
        have : ((2 * g : ℕ) : ℚ) * (B : ℚ) ≤ (A : ℚ) := by
          rw [← le_div_iff hBq]
          exact hgAB
        exact_mod_cast this
      have hgq : 2 * g ≤ A / B := by
        rw [Nat.le_div_iff_mul_le hB]
        exact hgN
      have hgm : 2 * g ≤ m0 := le_trans hgq (rneDiv_ge_div A B)
      have hgp : g ≤ 2 ^ (p - 1) := by
        rw [hcarry] at hgm
        have h2p : 2 ^ p = 2 * 2 ^ (p - 1) := by
          conv_lhs => rw [← Nat.sub_add_cancel hp]
          rw [pow_succ]
          ring
        omega
      have hcast : ((2 ^ (p - 1) : ℕ) : ℚ) * (2 : ℚ) ^ (E + 1) =
          (m0 : ℚ) * (2 : ℚ) ^ E := by
        rw [hcarry]
        push_cast
        rw [← zpow_natCast (2 : ℚ) (p - 1), ← zpow_natCast (2 : ℚ) p,
          zpow_add₀ h20, zpow_one]
        rw [show ((p - 1 : ℕ) : Int) = (p : Int) - 1 by omega]
        calc (2 : ℚ) ^ ((p : Int) - 1) * ((2 : ℚ) ^ E * 2)
            = (2 : ℚ) ^ ((p : Int) - 1) * 2 * (2 : ℚ) ^ E := by ring
          _ = (2 : ℚ) ^ ((p : ℕ) : Int) * (2 : ℚ) ^ E := by rw [hpow]
      rw [← hcast]
      have : (g : ℚ) ≤ ((2 ^ (p - 1) : ℕ) : ℚ) := by exact_mod_cast hgp
      exact mul_le_mul_of_nonneg_right this
        (le_of_lt (zpow_pos (by norm_num) (E + 1)))
    case isFalse hcarry =>
      rw [if_neg hcarry]
      dsimp only
      have hgAB : (g : ℚ) ≤ (A : ℚ) / (B : ℚ) := by
        have : (g : ℚ) * (2 : ℚ) ^ E ≤ (A : ℚ) / (B : ℚ) * (2 : ℚ) ^ E := by
          rw [← hr_eq]
          exact hg
        exact le_of_mul_le_mul_right this hEpos
      have hgN : g * B ≤ A := by
        have : (g : ℚ) * (B : ℚ) ≤ (A : ℚ) := by
          rw [← le_div_iff hBq]
          exact hgAB
        exact_mod_cast this
      have hgm : g ≤ m0 := by
        have : g ≤ A / B := by
          rw [Nat.le_div_iff_mul_le hB]
          exact hgN
        exact le_trans this (rneDiv_ge_div A B)
      have : (g : ℚ) ≤ (m0 : ℚ) := by exact_mod_cast hgm
      exact mul_le_mul_of_nonneg_right this (le_of_lt hEpos)
  · -- upper grid bound
    intro g hg
    rw [hval]
    rw [hx] at hg ⊢
    split at hg
    case isTrue hcarry =>
      rw [if_pos hcarry]
      dsimp only
      have hEe : e - t + 1 = E + 1 := by omega
      rw [hEe] at hg ⊢
      have hg2 : (A : ℚ) / (B : ℚ) * (2 : ℚ) ^ E ≤
          ((2 * g : ℕ) : ℚ) * (2 : ℚ) ^ E := by
        rw [← hr_eq]
        push_cast
        calc r ≤ (g : ℚ) * (2 : ℚ) ^ (E + 1) := hg
          _ = (2 : ℚ) * (g : ℚ) * (2 : ℚ) ^ E := by
              rw [zpow_add₀ h20, zpow_one]
              ring
      have hgAB : (A : ℚ) / (B : ℚ) ≤ ((2 * g : ℕ) : ℚ) :=
        le_of_mul_le_mul_right hg2 hEpos
      have hm0g : (m0 : ℚ) ≤ ((2 * g : ℕ) : ℚ) + 1 / 2 := by
        calc (m0 : ℚ) ≤ (A : ℚ) / (B : ℚ) + 1 / 2 := hnear1
          _ ≤ ((2 * g : ℕ) : ℚ) + 1 / 2 := by linarith
      have hm0gN : m0 ≤ 2 * g := by
        by_contra hcon
        have : (2 * g : ℕ) + 1 ≤ m0 := by omega
        have hq : ((2 * g : ℕ) : ℚ) + 1 ≤ (m0 : ℚ) := by exact_mod_cast this
        linarith
      have hgp : 2 ^ (p - 1) ≤ g := by
        rw [hcarry] at hm0gN
        have h2p : 2 ^ p = 2 * 2 ^ (p - 1) := by
          conv_lhs => rw [← Nat.sub_add_cancel hp]
          rw [pow_succ]
          ring
        omega
      have hcast : (m0 : ℚ) * (2 : ℚ) ^ E =
          ((2 ^ (p - 1) : ℕ) : ℚ) * (2 : ℚ) ^ (E + 1) := by
        rw [hcarry]
        push_cast
        rw [← zpow_natCast (2 : ℚ) (p - 1), ← zpow_natCast (2 : ℚ) p,
          zpow_add₀ h20, zpow_one]
        rw [show ((p - 1 : ℕ) : Int) = (p : Int) - 1 by omega]
        calc (2 : ℚ) ^ ((p : ℕ) : Int) * (2 : ℚ) ^ E
            = (2 : ℚ) ^ ((p : Int) - 1) * 2 * (2 : ℚ) ^ E := by rw [hpow]
          _ = (2 : ℚ) ^ ((p : Int) - 1) * ((2 : ℚ) ^ E * 2) := by ring
      rw [hcast]
      have : ((2 ^ (p - 1) : ℕ) : ℚ) ≤ (g : ℚ) := by exact_mod_cast hgp
      exact mul_le_mul_of_nonneg_right this
        (le_of_lt (zpow_pos (by norm_num) (E + 1)))
    case isFalse hcarry =>
      rw [if_neg hcarry]
      dsimp only
      have hgAB : (A : ℚ) / (B : ℚ) ≤ (g : ℚ) := by
        have : (A : ℚ) / (B : ℚ) * (2 : ℚ) ^ E ≤ (g : ℚ) * (2 : ℚ) ^ E := by
          rw [← hr_eq]
          exact hg
        exact le_of_mul_le_mul_right this hEpos
      have hm0g : m0 ≤ g := by
        by_contra hcon
        have : (g : ℕ) + 1 ≤ m0 := by omega
        have hq : (g : ℚ) + 1 ≤ (m0 : ℚ) := by exact_mod_cast this
        linarith [hnear1]
      have : (m0 : ℚ) ≤ (g : ℚ) := by exact_mod_cast hm0g
      exact mul_le_mul_of_nonneg_right this (le_of_lt hEpos)

theorem two_zpow_pos (m : Int) : (0 : ℚ) < (2 : ℚ) ^ m :=
  zpow_pos (by norm_num) m

theorem two_zpow_mono {m n : Int} (h : m ≤ n) :
    (2 : ℚ) ^ m ≤ (2 : ℚ) ^ n := by
  have h20 : (2 : ℚ) ≠ 0 := by norm_num
  have h1 : (2 : ℚ) ^ n = (2 : ℚ) ^ m * (2 : ℚ) ^ (n - m) := by
    rw [← zpow_add₀ h20]
    congr 1
    ring
  have h3 : (2 : ℚ) ^ (n - m) = (2 : ℚ) ^ ((n - m).toNat : ℕ) := by
    conv_lhs => rw [← Int.toNat_of_nonneg (by omega : (0 : ℤ) ≤ n - m)]
    rw [zpow_natCast]
  have h2 : (1 : ℚ) ≤ (2 : ℚ) ^ (n - m) := by
    rw [h3]
    exact one_le_pow₀ (by norm_num)
  calc (2 : ℚ) ^ m = (2 : ℚ) ^ m * 1 := by ring
    _ ≤ (2 : ℚ) ^ m * (2 : ℚ) ^ (n - m) :=
      mul_le_mul_of_nonneg_left h2 (le_of_lt (two_zpow_pos m))
    _ = (2 : ℚ) ^ n := h1.symm

/-- `fpOfNat` is exact below `2^p`: integer-to-float conversion loses
nothing when the integer fits in the significand. -/
theorem fpVal_fpOfNat (p n : Nat) (hp : 1 ≤ p) (hp128 : p ≤ 128)
    (h0 : 0 < n) (hn : n < 2 ^ p) :
    fpVal (fpOfNat p n) = (n : ℚ) := by
  unfold fpOfNat
  have hn128 : n < 2 ^ 128 :=
    lt_of_lt_of_le hn (Nat.pow_le_pow_right (by norm_num) hp128)
  obtain ⟨⟨hm1, hm2⟩, ⟨hlb, hub⟩, hglo, hghi⟩ :=
    fpOfRat_spec p n 1 0 hp h0 (by norm_num) hn128 (by norm_num)
  have hr : (n : ℚ) / ((1 : ℕ) : ℚ) * (2 : ℚ) ^ (0 : Int) = (n : ℚ) := by
    norm_num
  rw [hr] at hlb hub hglo hghi
  set x := fpOfRat p n 1 0 with hxs
  -- the exponent of the result is nonpositive
  have hxe : x.e ≤ 0 := by
    by_contra hcon
    have h1 : (1 : Int) ≤ x.e := by omega
    have h2 : (2 : ℚ) ≤ (2 : ℚ) ^ x.e := by
      calc (2 : ℚ) = (2 : ℚ) ^ (1 : Int) := (zpow_one 2).symm
        _ ≤ (2 : ℚ) ^ x.e := two_zpow_mono h1
    have h3 : ((2 ^ (p - 1) : ℕ) : ℚ) * 2 ≤ fpVal x := by
      calc ((2 ^ (p - 1) : ℕ) : ℚ) * 2 ≤ (x.m : ℚ) * (2 : ℚ) ^ x.e := by
            have hc : ((2 ^ (p - 1) : ℕ) : ℚ) ≤ (x.m : ℚ) := by
              exact_mod_cast hm1
            have hq0 : (0 : ℚ) ≤ ((2 ^ (p - 1) : ℕ) : ℚ) := by positivity
            calc ((2 ^ (p - 1) : ℕ) : ℚ) * 2
                ≤ ((2 ^ (p - 1) : ℕ) : ℚ) * (2 : ℚ) ^ x.e :=
                  mul_le_mul_of_nonneg_left h2 hq0
              _ ≤ (x.m : ℚ) * (2 : ℚ) ^ x.e :=
                  mul_le_mul_of_nonneg_right hc (le_of_lt (two_zpow_pos x.e))
        _ = fpVal x := rfl
    have h4 : fpVal x ≤ (n : ℚ) * (1 + (2 : ℚ) ^ (-(p : Int))) := hub
    have h5 : (n : ℚ) * (1 + (2 : ℚ) ^ (-(p : Int))) < ((2 ^ p : ℕ) : ℚ) := by
      have hn1 : (n : ℚ) + 1 ≤ ((2 ^ p : ℕ) : ℚ) := by exact_mod_cast hn
      have hnp : (n : ℚ) * (2 : ℚ) ^ (-(p : Int)) < 1 := by
        have he : (2 : ℚ) ^ (-(p : Int)) = (((2 ^ p : ℕ) : ℚ))⁻¹ := by
          rw [zpow_neg]
          congr 1
          push_cast
          rw [zpow_natCast]
        rw [he]
        rw [mul_inv_lt_iff₀ (by positivity)]
        have : (n : ℚ) < ((2 ^ p : ℕ) : ℚ) := by exact_mod_cast hn
        linarith
      nlinarith [hnp]
    have h6 : ((2 ^ p : ℕ) : ℚ) ≤ ((2 ^ (p - 1) : ℕ) : ℚ) * 2 := by
      have : (2 : ℕ) ^ p ≤ 2 ^ (p - 1) * 2 := by
        have hps : p - 1 + 1 = p := by omega
        calc (2 : ℕ) ^ p = 2 ^ (p - 1 + 1) := by rw [hps]
          _ = 2 ^ (p - 1) * 2 := pow_succ 2 (p - 1)
          _ ≤ 2 ^ (p - 1) * 2 := le_refl _
      exact_mod_cast this
    linarith
  -- n lies on the result's grid, so both grid bounds pin the value
  have hgrid : ((n * 2 ^ (-x.e).toNat : ℕ) : ℚ) * (2 : ℚ) ^ x.e = (n : ℚ) := by
    push_cast
    rw [mul_assoc, ← zpow_natCast (2 : ℚ) (-x.e).toNat,
      ← zpow_add₀ (by norm_num : (2 : ℚ) ≠ 0)]
    rw [show ((((-x.e).toNat : ℕ) : ℤ)) + x.e = 0 by omega]
    norm_num
  have hlo := hglo (n * 2 ^ (-x.e).toNat) (by rw [hgrid])
  have hhi := hghi (n * 2 ^ (-x.e).toNat) (by rw [hgrid])
  rw [hgrid] at hlo hhi
  exact le_antisymm hhi hlo

/-- `fpLe` decides exactly the comparison of the represented values. -/
theorem fpLe_iff (a b : FP) : fpLe a b = true ↔ fpVal a ≤ fpVal b := by
  unfold fpLe fpVal
  by_cases h : a.e ≤ b.e
  · rw [if_pos h, decide_eq_true_eq]
    have hk : (((b.e - a.e).toNat : ℕ) : ℤ) = b.e - a.e :=
      Int.toNat_of_nonneg (by omega)
    have hsplit : (b.m : ℚ) * (2 : ℚ) ^ b.e =
        (b.m : ℚ) * (2 : ℚ) ^ ((b.e - a.e).toNat : ℕ) * (2 : ℚ) ^ a.e := by
      rw [mul_assoc, ← zpow_natCast (2 : ℚ) (b.e - a.e).toNat, hk,
        ← zpow_add₀ (by norm_num : (2 : ℚ) ≠ 0)]
      congr 2
      ring
    rw [hsplit]
    rw [mul_le_mul_right (two_zpow_pos a.e)]
    constructor
    · intro hnat
      have : ((a.m : ℕ) : ℚ) ≤ ((b.m * 2 ^ (b.e - a.e).toNat : ℕ) : ℚ) := by
        exact_mod_cast hnat
      push_cast at this
      exact this
    · intro hq
      have : ((a.m : ℕ) : ℚ) ≤ ((b.m * 2 ^ (b.e - a.e).toNat : ℕ) : ℚ) := by
        push_cast
        exact hq
      exact_mod_cast this
  · rw [if_neg h, decide_eq_true_eq]
    have hk : (((a.e - b.e).toNat : ℕ) : ℤ) = a.e - b.e :=
      Int.toNat_of_nonneg (by omega)
    have hsplit : (a.m : ℚ) * (2 : ℚ) ^ a.e =
        (a.m : ℚ) * (2 : ℚ) ^ ((a.e - b.e).toNat : ℕ) * (2 : ℚ) ^ b.e := by
      rw [mul_assoc, ← zpow_natCast (2 : ℚ) (a.e - b.e).toNat, hk,
        ← zpow_add₀ (by norm_num : (2 : ℚ) ≠ 0)]
      congr 2
      ring
    rw [hsplit]
    rw [mul_le_mul_right (two_zpow_pos b.e)]
    constructor
    · intro hnat
      have : ((a.m * 2 ^ (a.e - b.e).toNat : ℕ) : ℚ) ≤ ((b.m : ℕ) : ℚ) := by
        exact_mod_cast hnat
      push_cast at this
      exact this
    · intro hq
      have : ((a.m * 2 ^ (a.e - b.e).toNat : ℕ) : ℚ) ≤ ((b.m : ℕ) : ℚ) := by
        push_cast
        exact hq
      exact_mod_cast this

/-- `fpLt` decides exactly the strict comparison of the values. -/
theorem fpLt_iff (a b : FP) : fpLt a b = true ↔ fpVal a < fpVal b := by
  unfold fpLt fpVal
  by_cases h : a.e ≤ b.e
  · rw [if_pos h, decide_eq_true_eq]
    have hk : (((b.e - a.e).toNat : ℕ) : ℤ) = b.e - a.e :=
      Int.toNat_of_nonneg (by omega)
    have hsplit : (b.m : ℚ) * (2 : ℚ) ^ b.e =
        (b.m : ℚ) * (2 : ℚ) ^ ((b.e - a.e).toNat : ℕ) * (2 : ℚ) ^ a.e := by
      rw [mul_assoc, ← zpow_natCast (2 : ℚ) (b.e - a.e).toNat, hk,
        ← zpow_add₀ (by norm_num : (2 : ℚ) ≠ 0)]
      congr 2
      ring
    rw [hsplit]
    rw [mul_lt_mul_right (two_zpow_pos a.e)]
    constructor
    · intro hnat
      have : ((a.m : ℕ) : ℚ) < ((b.m * 2 ^ (b.e - a.e).toNat : ℕ) : ℚ) := by
        exact_mod_cast hnat
      push_cast at this
      exact this
    · intro hq
      have : ((a.m : ℕ) : ℚ) < ((b.m * 2 ^ (b.e - a.e).toNat : ℕ) : ℚ) := by
        push_cast
        exact hq
      exact_mod_cast this
  · rw [if_neg h, decide_eq_true_eq]
    have hk : (((a.e - b.e).toNat : ℕ) : ℤ) = a.e - b.e :=
      Int.toNat_of_nonneg (by omega)
    have hsplit : (a.m : ℚ) * (2 : ℚ) ^ a.e =
        (a.m : ℚ) * (2 : ℚ) ^ ((a.e - b.e).toNat : ℕ) * (2 : ℚ) ^ b.e := by
      rw [mul_assoc, ← zpow_natCast (2 : ℚ) (a.e - b.e).toNat, hk,
        ← zpow_add₀ (by norm_num : (2 : ℚ) ≠ 0)]
      congr 2
      ring
    rw [hsplit]
    rw [mul_lt_mul_right (two_zpow_pos b.e)]
    constructor
    · intro hnat
      have : ((a.m * 2 ^ (a.e - b.e).toNat : ℕ) : ℚ) < ((b.m : ℕ) : ℚ) := by
        exact_mod_cast hnat
      push_cast at this
      exact this
    · intro hq
      have : ((a.m * 2 ^ (a.e - b.e).toNat : ℕ) : ℚ) < ((b.m : ℕ) : ℚ) := by
        push_cast
        exact hq
      exact_mod_cast this

/-- Relative-error bounds for the embedded `f32`/`f64` division. -/
theorem fpDiv_val_bounds (p : Nat) (a b : FP) (hp : 1 ≤ p)
    (ha : 0 < a.m) (hb : 0 < b.m)
    (ha128 : a.m < 2 ^ 128) (hb128 : b.m < 2 ^ 128) :
    fpVal a / fpVal b * (1 - (2 : ℚ) ^ (-(p : Int))) ≤ fpVal (fpDiv p a b) ∧
    fpVal (fpDiv p a b) ≤ fpVal a / fpVal b * (1 + (2 : ℚ) ^ (-(p : Int))) := by
  have hdiv : fpDiv p a b = fpOfRat p a.m b.m (a.e - b.e) := by
    unfold fpDiv
    rw [if_neg (by omega)]
  obtain ⟨-, ⟨hlb, hub⟩, -, -⟩ :=
    fpOfRat_spec p a.m b.m (a.e - b.e) hp ha hb ha128 hb128
  have hr : (a.m : ℚ) / (b.m : ℚ) * (2 : ℚ) ^ (a.e - b.e) =
      fpVal a / fpVal b := by
    unfold fpVal
    rw [zpow_sub₀ (by norm_num : (2 : ℚ) ≠ 0)]
    have hbm : ((b.m : ℕ) : ℚ) ≠ 0 := by
      simp only [ne_eq, Nat.cast_eq_zero]
      omega
    field_simp
  rw [hdiv]
  rw [hr] at hlb hub
  exact ⟨hlb, hub⟩

/-- Significand range, value bounds and lower grid bound for the
embedded multiplication. -/
theorem fpMul_spec (p : Nat) (a b : FP) (hp : 1 ≤ p)
    (ha : 0 < a.m) (hb : 0 < b.m) (hab128 : a.m * b.m < 2 ^ 128) :
    (2 ^ (p - 1) ≤ (fpMul p a b).m ∧ (fpMul p a b).m < 2 ^ p) ∧
    (fpVal a * fpVal b * (1 - (2 : ℚ) ^ (-(p : Int))) ≤ fpVal (fpMul p a b) ∧
      fpVal (fpMul p a b) ≤
        fpVal a * fpVal b * (1 + (2 : ℚ) ^ (-(p : Int)))) ∧
    (∀ g : Nat,
      (g : ℚ) * (2 : ℚ) ^ (fpMul p a b).e ≤ fpVal a * fpVal b →
        (g : ℚ) * (2 : ℚ) ^ (fpMul p a b).e ≤ fpVal (fpMul p a b)) := by
  have hmul : fpMul p a b = fpOfRat p (a.m * b.m) 1 (a.e + b.e) := by
    unfold fpMul
    rw [if_neg (by omega)]
  obtain ⟨hmrange, ⟨hlb, hub⟩, hglo, -⟩ :=
    fpOfRat_spec p (a.m * b.m) 1 (a.e + b.e) hp (by positivity) (by norm_num)
      hab128 (by norm_num)
  have hr : ((a.m * b.m : ℕ) : ℚ) / ((1 : ℕ) : ℚ) * (2 : ℚ) ^ (a.e + b.e) =
      fpVal a * fpVal b := by
    unfold fpVal
    push_cast
    rw [zpow_add₀ (by norm_num : (2 : ℚ) ≠ 0)]
    ring
  rw [hmul]
  rw [hr] at hlb hub hglo
  exact ⟨hmrange, ⟨hlb, hub⟩, hglo⟩

/-- In the downsample branch the computed `f32` scale always compares
strictly below `1.0`: the cap is at most 1500 while the larger
dimension is above 1500, and the relative rounding errors (at most
`2^-24` per operation) cannot bridge that gap. -/
theorem scale_lt_one (cap M : Nat) (hcap1 : 1000 ≤ cap) (hcap2 : cap ≤ 1500)
    (hM : 1500 < M) (hM32 : M < 2 ^ 32) :
    fpLt (fpDiv 24 (fpOfNat 24 cap) (fpOfNat 24 M)) (fpOfNat 24 1) = true := by
  rw [fpLt_iff]
  rw [fpVal_fpOfNat 24 1 (by norm_num) (by norm_num) (by norm_num)
    (by norm_num)]
  have hM128 : M < 2 ^ 128 := lt_trans hM32 (by norm_num)
  have hcapv : fpVal (fpOfNat 24 cap) = (cap : ℚ) :=
    fpVal_fpOfNat 24 cap (by norm_num) (by norm_num) (by omega) (by omega)
  -- significand facts for the operands
  obtain ⟨hcapm, -, -, -⟩ :=
    fpOfRat_spec 24 cap 1 0 (by norm_num) (by omega) (by norm_num)
      (by omega) (by norm_num)
  obtain ⟨hMm, ⟨hMlb, hMub⟩, -, -⟩ :=
    fpOfRat_spec 24 M 1 0 (by norm_num) (by omega) (by norm_num)
      hM128 (by norm_num)
  have hMr : ((M : ℕ) : ℚ) / ((1 : ℕ) : ℚ) * (2 : ℚ) ^ (0 : Int) = (M : ℚ) := by
    norm_num
  rw [hMr] at hMlb hMub
  set ε : ℚ := (2 : ℚ) ^ (-(24 : Int)) with hεs
  have hεv : ε = 1 / 16777216 := by
    rw [hεs]
    rw [show (-(24 : Int)) = -((24 : ℕ) : Int) by norm_num, zpow_neg,
      zpow_natCast]
    norm_num
  have hMq : (1501 : ℚ) ≤ (M : ℚ) := by exact_mod_cast hM
  have hcapq : ((cap : ℕ) : ℚ) ≤ 1500 := by exact_mod_cast hcap2
  have hcapq0 : (0 : ℚ) < ((cap : ℕ) : ℚ) := by
    have : 0 < cap := by omega
    exact_mod_cast this
  have hMFv_low : (M : ℚ) * (1 - ε) ≤ fpVal (fpOfNat 24 M) := hMlb
  have hMFv_pos : (0 : ℚ) < fpVal (fpOfNat 24 M) := by
    have h1 : (0 : ℚ) < (M : ℚ) * (1 - ε) := by
      rw [hεv]
      nlinarith
    linarith
  have hcapm0 : 0 < (fpOfNat 24 cap).m := by
    show 0 < (fpOfRat 24 cap 1 0).m
    omega
  have hMm0 : 0 < (fpOfNat 24 M).m := by
    show 0 < (fpOfRat 24 M 1 0).m
    omega
  have hcapm128 : (fpOfNat 24 cap).m < 2 ^ 128 := by
    show (fpOfRat 24 cap 1 0).m < 2 ^ 128
    calc (fpOfRat 24 cap 1 0).m < 2 ^ 24 := hcapm.2
      _ < 2 ^ 128 := by norm_num
  have hMm128 : (fpOfNat 24 M).m < 2 ^ 128 := by
    show (fpOfRat 24 M 1 0).m < 2 ^ 128
    calc (fpOfRat 24 M 1 0).m < 2 ^ 24 := hMm.2
      _ < 2 ^ 128 := by norm_num
  obtain ⟨-, hdivub⟩ := fpDiv_val_bounds 24 (fpOfNat 24 cap) (fpOfNat 24 M)
    (by norm_num) hcapm0 hMm0 hcapm128 hMm128
  rw [hcapv] at hdivub
  have hstep1 : (cap : ℚ) / fpVal (fpOfNat 24 M) ≤
      (cap : ℚ) / ((M : ℚ) * (1 - ε)) := by
    gcongr <;> first
      | exact hMFv_low
      | (rw [hεv]; nlinarith)
  have hstep2 : (cap : ℚ) / ((M : ℚ) * (1 - ε)) * (1 + ε) < 1 := by
    rw [div_mul_eq_mul_div, div_lt_one (by rw [hεv]; nlinarith)]
    rw [hεv]
    nlinarith
  have hε_pos : (0 : ℚ) < 1 + ε := by rw [hεv]; norm_num
  calc fpVal (fpDiv 24 (fpOfNat 24 cap) (fpOfNat 24 M))
      ≤ (cap : ℚ) / fpVal (fpOfNat 24 M) * (1 + ε) := hdivub
    _ ≤ (cap : ℚ) / ((M : ℚ) * (1 - ε)) * (1 + ε) :=
        mul_le_mul_of_nonneg_right hstep1 (le_of_lt hε_pos)
    _ < 1 := hstep2

/-- Counterexample for C3: at quality 40 the claimed cap is 1000 px and
the image is 1400×1000 — its larger dimension exceeds the cap, so the
claim demands downsampling — but the code's gate `width > 1500 ||
height > 1500` does not fire and the dimensions are kept. -/
theorem spec_C3_counterexample :
    targetDimsStream 40 1400 1000 = (1400, 1000) ∧
    downsampleCap 40 = 1000 ∧ 40 < 90 ∧ 1000 < 1400 := by
  refine ⟨rfl, rfl, by norm_num, by norm_num⟩

/-- Claim C3 (amended) — downsample policy as implemented: the cap per
quality band is 1000 px (q < 50), 1200 px (50 ≤ q < 70) and 1500 px
(q ≥ 70); at q ≥ 90 dimensions are always kept; at q < 90 downsampling
happens only when width or height exceeds 1500 px (not the band cap),
in which case both dimensions are scaled by the same `f32` ratio
cap / max(width, height); the standalone-image path computes exactly
the same target dimensions (its extra `scale < 1.0` guard is always
true in the downsample branch). -/
theorem spec_C3_downsample_policy :
    (∀ q, q < 50 → downsampleCap q = 1000) ∧
    (∀ q, 50 ≤ q → q < 70 → downsampleCap q = 1200) ∧
    (∀ q, 70 ≤ q → downsampleCap q = 1500) ∧
    (∀ q w h, 90 ≤ q → targetDimsStream q w h = (w, h)) ∧
    (∀ q w h, q < 90 → w ≤ 1500 → h ≤ 1500 →
      targetDimsStream q w h = (w, h)) ∧
    (∀ q w h, q < 90 → (1500 < w ∨ 1500 < h) →
      targetDimsStream q w h = f32ScaledDims (downsampleCap q) w h) ∧
    (∀ q w h, w < 2 ^ 32 → h < 2 ^ 32 →
      targetDimsStandalone q w h = targetDimsStream q w h) := by
  refine ⟨?_, ?_, ?_, ?_, ?_, ?_, ?_⟩
  · intro q hq
    unfold downsampleCap
    rw [if_neg (by omega), if_neg (by omega)]
  · intro q hq1 hq2
    unfold downsampleCap
    rw [if_neg (by omega), if_pos (by omega)]
  · intro q hq
    unfold downsampleCap
    rw [if_pos (by omega)]
  · intro q w h hq
    unfold targetDimsStream
    rw [if_neg (by omega)]
  · intro q w h hq hw hh
    unfold targetDimsStream
    rw [if_neg (by omega)]
  · intro q w h hq hwh
    unfold targetDimsStream
    rw [if_pos (by exact ⟨hq, by omega⟩)]
  · intro q w h hw hh
    unfold targetDimsStandalone targetDimsStream
    by_cases hg : q < 90 ∧ (w > 1500 ∨ h > 1500)
    · rw [if_pos hg, if_pos hg]
      have hcap1 : 1000 ≤ downsampleCap q := by
        unfold downsampleCap
        split_ifs <;> omega
      have hcap2 : downsampleCap q ≤ 1500 := by
        unfold downsampleCap
        split_ifs <;> omega
      have hMgt : 1500 < max w h := by
        rcases hg.2 with hw1 | hh1
        · exact lt_of_lt_of_le hw1 (le_max_left w h)
        · exact lt_of_lt_of_le hh1 (le_max_right w h)
      have hM32 : max w h < 2 ^ 32 := by
        rcases max_choice w h with hmc | hmc <;> rw [hmc] <;> omega
      rw [if_pos (scale_lt_one (downsampleCap q) (max w h)
        hcap1 hcap2 hMgt hM32)]
    · rw [if_neg hg, if_neg hg]

/-- Witness for C3 (amended): the keep-branch at quality 95, the
downsample branch (and its agreement with the standalone path) at
quality 40 for a 1600×900 image, via the theorem at concrete inputs. -/
theorem spec_C3_downsample_policy_witness :
    targetDimsStream 95 5000 4000 = (5000, 4000) ∧
    targetDimsStream 40 1600 900 = f32ScaledDims (downsampleCap 40) 1600 900 ∧
    targetDimsStandalone 40 1600 900 = targetDimsStream 40 1600 900 := by
  refine ⟨?_, ?_, ?_⟩
  · exact spec_C3_downsample_policy.2.2.2.1 95 5000 4000 (by norm_num)
  · exact spec_C3_downsample_policy.2.2.2.2.2.1 40 1600 900 (by norm_num)
      (Or.inl (by norm_num))
  · exact spec_C3_downsample_policy.2.2.2.2.2.2 40 1600 900 (by norm_num)
      (by norm_num)

set_option maxHeartbeats 1600000 in
/-- For candidate sizes up to `2^40` bytes, the `f64` comparison
`png_size <= jpeg_size * 1.1` of lib.rs line 475 decides exactly the
rational test `10 * png ≤ 11 * jpeg`. -/
theorem f64_tolerance_iff (j k : Nat) (hj : 0 < j) (hj40 : j ≤ 2 ^ 40)
    (hk40 : k ≤ 2 ^ 40) :
    (fpLe (fpOfNat 53 k) (fpMul 53 (fpOfNat 53 j) f64c11) = true) ↔
      10 * k ≤ 11 * j := by
  have hc11 : f64c11 = ⟨4953959590107546, -52⟩ := by decide
  have hc11v : fpVal f64c11 = 4953959590107546 / 2 ^ 52 := by
    rw [hc11]
    unfold fpVal
    simp only
    rw [show (-(52 : Int)) = -((52 : ℕ) : Int) by norm_num, zpow_neg,
      zpow_natCast]
    norm_num
  have hclow : (11 / 10 : ℚ) ≤ fpVal f64c11 := by
    rw [hc11v]
    norm_num
  have hchigh : fpVal f64c11 ≤ 11 / 10 + 1 / 2 ^ 52 := by
    rw [hc11v]
    norm_num
  have hjlt : j < 2 ^ 53 := lt_of_le_of_lt hj40 (by norm_num)
  have hjv : fpVal (fpOfNat 53 j) = (j : ℚ) :=
    fpVal_fpOfNat 53 j (by norm_num) (by norm_num) hj hjlt
  obtain ⟨hjm, -, -, -⟩ :=
    fpOfRat_spec 53 j 1 0 (by norm_num) hj (by norm_num)
      (lt_trans hjlt (by norm_num)) (by norm_num)
  have hjm0 : 0 < (fpOfNat 53 j).m := by
    show 0 < (fpOfRat 53 j 1 0).m
    omega
  have hjm53 : (fpOfNat 53 j).m < 2 ^ 53 := by
    show (fpOfRat 53 j 1 0).m < 2 ^ 53
    omega
  have hcm0 : 0 < f64c11.m := by
    rw [hc11]
    norm_num
  have hcm53 : f64c11.m < 2 ^ 53 := by
    rw [hc11]
    norm_num
  have hab128 : (fpOfNat 53 j).m * f64c11.m < 2 ^ 128 := by
    calc (fpOfNat 53 j).m * f64c11.m < 2 ^ 53 * 2 ^ 53 := by
          exact Nat.mul_lt_mul_of_lt_of_lt hjm53 hcm53
      _ < 2 ^ 128 := by norm_num
  obtain ⟨hpm, ⟨hplb, hpub⟩, hpgrid⟩ :=
    fpMul_spec 53 (fpOfNat 53 j) f64c11 (by norm_num) hjm0 hcm0 hab128
  rw [hjv] at hplb hpub hpgrid
  set vc : ℚ := fpVal f64c11 with hvcs
  set prod : FP := fpMul 53 (fpOfNat 53 j) f64c11 with hprods
  have heps : (2 : ℚ) ^ (-((53 : ℕ) : Int)) = 1 / 2 ^ 53 := by
    rw [zpow_neg, zpow_natCast]
    norm_num
  rw [heps] at hplb hpub
  have hjq0 : (0 : ℚ) < (j : ℚ) := by exact_mod_cast hj
  have hjq : (j : ℚ) ≤ 2 ^ 40 := by exact_mod_cast hj40
  have hvpos : (0 : ℚ) < fpVal prod := by
    have h1 : (0 : ℚ) < (j : ℚ) * vc * (1 - 1 / 2 ^ 53) := by
      have hvc0 : (0 : ℚ) < vc := by
        calc (0 : ℚ) < 11 / 10 := by norm_num
          _ ≤ vc := hclow
      nlinarith
    linarith
  rw [fpLe_iff]
  rcases Nat.eq_zero_or_pos k with hk0 | hkpos
  · subst hk0
    have h0 : fpVal (fpOfNat 53 0) = 0 := by
      show fpVal (fpOfRat 53 0 1 0) = 0
      unfold fpOfRat
      rw [if_pos (by norm_num)]
      unfold fpVal
      norm_num
    rw [h0]
    constructor
    · intro
      omega
    · intro
      exact le_of_lt hvpos
  · have hkv : fpVal (fpOfNat 53 k) = (k : ℚ) :=
      fpVal_fpOfNat 53 k (by norm_num) (by norm_num) hkpos
        (lt_of_le_of_lt hk40 (by norm_num))
    rw [hkv]
    have hkq : (k : ℚ) ≤ 2 ^ 40 := by exact_mod_cast hk40
    -- an explicit upper bound on the product value
    have hub2 : fpVal prod ≤ 11 * (j : ℚ) / 10 + 1 / 2 ^ 10 := by
      have h2 : (j : ℚ) * vc ≤ (j : ℚ) * (11 / 10 + 1 / 2 ^ 52) :=
        mul_le_mul_of_nonneg_left hchigh (le_of_lt hjq0)
      have h3 : (j : ℚ) * (11 / 10 + 1 / 2 ^ 52) ≤
          11 * (j : ℚ) / 10 + 1 / 2 ^ 12 := by
        have : (j : ℚ) * (1 / 2 ^ 52) ≤ 2 ^ 40 * (1 / 2 ^ 52) :=
          mul_le_mul_of_nonneg_right hjq (by norm_num)
        nlinarith
      have h4 : fpVal prod ≤
          (11 * (j : ℚ) / 10 + 1 / 2 ^ 12) * (1 + 1 / 2 ^ 53) := by
        calc fpVal prod ≤ (j : ℚ) * vc * (1 + 1 / 2 ^ 53) := hpub
          _ ≤ (11 * (j : ℚ) / 10 + 1 / 2 ^ 12) * (1 + 1 / 2 ^ 53) := by
              have := le_trans h2 h3
              nlinarith
      have h5 : (11 * (j : ℚ) / 10 + 1 / 2 ^ 12) * (1 + 1 / 2 ^ 53) ≤
          11 * (j : ℚ) / 10 + 1 / 2 ^ 10 := by
        have hj11 : 11 * (j : ℚ) / 10 * (1 / 2 ^ 53) ≤
            11 * (2 ^ 40 : ℚ) / 10 * (1 / 2 ^ 53) := by
          gcongr
        nlinarith
      linarith
    constructor
    · -- the float test implies the rational test
      intro hle
      by_contra hcon
      have hcon2 : 11 * j + 1 ≤ 10 * k := by omega
      have hconq : 11 * (j : ℚ) + 1 ≤ 10 * (k : ℚ) := by exact_mod_cast hcon2
      have : fpVal prod < (k : ℚ) := by
        calc fpVal prod ≤ 11 * (j : ℚ) / 10 + 1 / 2 ^ 10 := hub2
          _ < (k : ℚ) := by linarith
      linarith
    · -- the rational test implies the float test
      intro hrat
      rcases Nat.lt_or_ge (10 * k) (11 * j) with hstrict | heq0
      · -- strictly below the threshold: the error bound settles it
        have h1 : 10 * k + 1 ≤ 11 * j := by omega
        have h1q : 10 * (k : ℚ) + 1 ≤ 11 * (j : ℚ) := by exact_mod_cast h1
        have h2 : (j : ℚ) * (11 / 10) ≤ (j : ℚ) * vc :=
          mul_le_mul_of_nonneg_left hclow (le_of_lt hjq0)
        have h3 : (j : ℚ) * vc * (1 - 1 / 2 ^ 53) ≤ fpVal prod := hplb
        have h4 : 11 * (j : ℚ) / 10 * (1 - 1 / 2 ^ 53) ≤ fpVal prod := by
          have hpos : (0 : ℚ) ≤ 1 - 1 / 2 ^ 53 := by norm_num
          have h2b : 11 * (j : ℚ) / 10 * (1 - 1 / 2 ^ 53) ≤
              (j : ℚ) * vc * (1 - 1 / 2 ^ 53) := by
            have h2c : 11 * (j : ℚ) / 10 ≤ (j : ℚ) * vc := by linarith
            exact mul_le_mul_of_nonneg_right h2c hpos
          linarith
        have h5 : (j : ℚ) * (1 / 2 ^ 53) ≤ (2 ^ 40 : ℚ) * (1 / 2 ^ 53) :=
          mul_le_mul_of_nonneg_right hjq (by norm_num)
        linarith
      · -- exactly on the threshold: k lies on the result's grid
        have heq : 10 * k = 11 * j := by omega
        have heqq : 10 * (k : ℚ) = 11 * (j : ℚ) := by exact_mod_cast heq
        have hpe : prod.e ≤ 0 := by
          by_contra hcon
          have h1 : (1 : Int) ≤ prod.e := by omega
          have h2 : (2 : ℚ) ≤ (2 : ℚ) ^ prod.e := by
            calc (2 : ℚ) = (2 : ℚ) ^ (1 : Int) := (zpow_one 2).symm
              _ ≤ (2 : ℚ) ^ prod.e := two_zpow_mono h1
          have h3 : ((2 ^ 52 : ℕ) : ℚ) * 2 ≤ fpVal prod := by
            have hm : ((2 ^ 52 : ℕ) : ℚ) ≤ (prod.m : ℚ) := by
              exact_mod_cast hpm.1
            calc ((2 ^ 52 : ℕ) : ℚ) * 2
                ≤ ((2 ^ 52 : ℕ) : ℚ) * (2 : ℚ) ^ prod.e :=
                  mul_le_mul_of_nonneg_left h2 (by positivity)
              _ ≤ (prod.m : ℚ) * (2 : ℚ) ^ prod.e :=
                  mul_le_mul_of_nonneg_right hm
                    (le_of_lt (two_zpow_pos prod.e))
              _ = fpVal prod := rfl
          have h4 : fpVal prod ≤ 11 * (2 ^ 40 : ℚ) / 10 + 1 / 2 ^ 10 := by
            have : 11 * (j : ℚ) / 10 ≤ 11 * (2 ^ 40 : ℚ) / 10 := by gcongr
            linarith [hub2]
          have h5 : ((2 ^ 52 : ℕ) : ℚ) * 2 = 2 ^ 53 := by
            push_cast
            ring
          rw [h5] at h3
          norm_num at h3 h4
          linarith
        have hgrid : ((k * 2 ^ (-prod.e).toNat : ℕ) : ℚ) *
            (2 : ℚ) ^ prod.e = (k : ℚ) := by
          push_cast
          rw [mul_assoc, ← zpow_natCast (2 : ℚ) (-prod.e).toNat,
            ← zpow_add₀ (by norm_num : (2 : ℚ) ≠ 0)]
          rw [show ((((-prod.e).toNat : ℕ) : ℤ)) + prod.e = 0 by omega]
          norm_num
        have hkler : ((k * 2 ^ (-prod.e).toNat : ℕ) : ℚ) *
            (2 : ℚ) ^ prod.e ≤ (j : ℚ) * vc := by
          rw [hgrid]
          have h2 : (j : ℚ) * (11 / 10) ≤ (j : ℚ) * vc :=
            mul_le_mul_of_nonneg_left hclow (le_of_lt hjq0)
          linarith
        have := hpgrid (k * 2 ^ (-prod.e).toNat) hkler
        rw [hgrid] at this
        exact this

/-- Counterexample for C7: with a lossless-sourced input whose JPEG
candidate has `6·10^15` bytes and whose PNG candidate has
`6.6·10^15 + 1` bytes (strictly more than 110 % of the JPEG size), the
`f64` comparison of lib.rs line 475 rounds `6·10^15 * 1.1` up to
`6.6·10^15 + 1` and the code returns the PNG candidate — so "the
lossless candidate is returned iff its size is at most 110 % of the
lossy candidate's size" is false as stated. -/
theorem spec_C7_counterexample :
    (compressImageBytes c7Ctx [0] 75 none).map (fun r => r.2) =
      .ok "png" ∧
    10 * c7P > 11 * c7J := by
  constructor
  · have hq : jpegQuality (clampLevel 75) = 50 := by decide
    have h2 : encodeImageWithQuality c7Ctx ⟨1, 1, []⟩ 50 ImgFormat.jpeg =
        .ok (List.replicate c7J 0) := rfl
    have h3 : encodeImageWithQuality c7Ctx ⟨1, 1, []⟩ 50 ImgFormat.png =
        .ok (List.replicate c7P 0) := rfl
    have hle : fpLe (fpOfNat 53 c7P) (fpMul 53 (fpOfNat 53 c7J) f64c11) =
        true := by decide
    unfold compressImageBytes
    dsimp only
    rw [hq, show c7Ctx.guessFormat [0] = some ImgFormat.png from rfl,
      show c7Ctx.loadFromMemory [0] = some (⟨1, 1, []⟩ : DynImg) from rfl]
    dsimp only
    rw [h2, h3]
    unfold pickAutoCandidate
    dsimp only
    rw [List.length_replicate, List.length_replicate, if_pos hle]
    rfl
  · norm_num [c7P, c7J]

/-- Claim C7 (amended) — standalone-image target selection: with no
target format, a lossy-sourced input (JPEG/WebP) is encoded lossy
directly; a lossless-sourced input encodes both JPEG and PNG
candidates; with both candidates available the PNG one is returned iff
`png_size as f64 <= jpeg_size as f64 * 1.1` — which coincides with
"at most 110 % of the lossy size" for all candidate sizes up to `2^40`
bytes (it deviates only at astronomically large sizes, as the
counterexample shows); if exactly one candidate fails the other is
returned, and if both fail the call is a fatal error. -/
theorem spec_C7_auto_selection :
    (∀ ctx input level img out fmt,
      (fmt = ImgFormat.jpeg ∨ fmt = ImgFormat.webp) →
      ctx.guessFormat input = some fmt →
      ctx.loadFromMemory input = some img →
      encodeImageWithQuality ctx img (jpegQuality (clampLevel level))
        .jpeg = .ok out →
      compressImageBytes ctx input level none = .ok (out, "jpg")) ∧
    (∀ ctx input level img fmt,
      (fmt = ImgFormat.png ∨ fmt = ImgFormat.other) →
      ctx.guessFormat input = some fmt →
      ctx.loadFromMemory input = some img →
      compressImageBytes ctx input level none =
        pickAutoCandidate
          (encodeImageWithQuality ctx img (jpegQuality (clampLevel level))
            .jpeg)
          (encodeImageWithQuality ctx img (jpegQuality (clampLevel level))
            .png)) ∧
    (∀ jb kb : List Nat, 0 < jb.length → jb.length ≤ 2 ^ 40 →
      kb.length ≤ 2 ^ 40 →
      pickAutoCandidate (.ok jb) (.ok kb) =
        if 10 * kb.length ≤ 11 * jb.length then .ok (kb, "png")
        else .ok (jb, "jpg")) ∧
    (∀ jb e2, pickAutoCandidate (.ok jb) (.error e2) = .ok (jb, "jpg")) ∧
    (∀ e1 kb, pickAutoCandidate (.error e1) (.ok kb) = .ok (kb, "png")) ∧
    (∀ e1 e2, ∃ msg,
      pickAutoCandidate (Except.error e1) (Except.error e2) =
        .error msg) := by
  refine ⟨?_, ?_, ?_, fun jb e2 => rfl, fun e1 kb => rfl,
    fun e1 e2 => ⟨_, rfl⟩⟩
  · intro ctx input level img out fmt hfmt hg hl he
    unfold compressImageBytes
    rcases hfmt with h | h <;> subst h <;> simp [hg, hl, he, extOf]
  · intro ctx input level img fmt hfmt hg hl
    unfold compressImageBytes
    rcases hfmt with h | h <;> subst h <;> simp [hg, hl]
  · intro jb kb hj0 hj40 hk40
    unfold pickAutoCandidate
    dsimp only
    by_cases hcmp : 10 * kb.length ≤ 11 * jb.length
    · rw [if_pos ((f64_tolerance_iff jb.length kb.length hj0 hj40
        hk40).mpr hcmp)]
      rw [if_pos hcmp]
    · rw [if_neg (fun hc => hcmp ((f64_tolerance_iff jb.length kb.length
        hj0 hj40 hk40).mp hc))]
      rw [if_neg hcmp]

/-- Witness for C7 (amended): both-candidate selection at sizes 100
(JPEG) and 110 (PNG) chooses PNG (exactly 110 %), and at 100/111
chooses JPEG, via the theorem at concrete inputs. -/
theorem spec_C7_auto_selection_witness :
    pickAutoCandidate (.ok (List.replicate 100 (0 : Nat)))
      (.ok (List.replicate 110 (0 : Nat))) =
      .ok (List.replicate 110 (0 : Nat), "png") ∧
    pickAutoCandidate (.ok (List.replicate 100 (0 : Nat)))
      (.ok (List.replicate 111 (0 : Nat))) =
      .ok (List.replicate 100 (0 : Nat), "jpg") := by
  constructor
  · have h := spec_C7_auto_selection.2.2.1 (List.replicate 100 (0 : Nat))
      (List.replicate 110 (0 : Nat)) (by simp) (by simp) (by simp)
    simpa using h
  · have h := spec_C7_auto_selection.2.2.1 (List.replicate 100 (0 : Nat))
      (List.replicate 111 (0 : Nat)) (by simp) (by simp) (by simp)
    simpa using h

end PdfComp
